import Mathlib

set_option linter.unusedVariables false

/-!
Shallow embedding of `ot/gromov.py` (Gromov-Wasserstein transport method).

Numerics: a floating-point value is modelled as `F := Option ℚ`.
`some q` is a finite value, `none` stands for any non-finite IEEE value
(`inf`, `-inf`, `nan`) or poisoned result.  On every operation path of this
module, non-finite values never map back to finite ones, so collapsing the
three non-finite values into `none` is exact for the properties proved here
(the one theoretical exception, `exp (-inf) = 0`, is never reachable on the
inputs used below).

Transcendental functions: the numerical value of `log`, `exp` and `sqrt` at a
positive rational is irrational, so the embedding carries them as explicit
function parameters (`logVal`, `expVal`, `sqrtVal`).  Definedness (the domain
checks, where numpy produces `nan` or `-inf`) is modelled exactly; theorems
quantify over all value functions, hence they hold in particular for the true
`log`, `exp` and `sqrt`.

Arrays: numpy is dynamically typed and the source exercises that (0-d scalars,
1-d vectors, 2-d matrices, and - when logging - Python tuples flow through the
same variables), so values are embedded as the inductive `NpVal`.  Operations
return `Except String _`; `Except.error` models a raised Python exception.

External collaborators (`ot.bregman.sinkhorn`, `ot.utils.dist`, `np.random`)
are outside `ot/gromov.py`: `sinkhorn` is passed as an opaque function
parameter (the spec treats it as a black box), `dist` is modelled from the
spec, and the ambient numpy random state is threaded as a stream `rng : ℕ → ℚ`
of standard-normal draws.
-/

namespace POTGromov

/-- Model of one numpy floating-point value: `some q` finite, `none` non-finite. -/
abbrev F : Type := Option ℚ

/-- Addition with non-finite propagation. -/
def fadd : F → F → F
  | some a, some b => some (a + b)
  | _, _ => none

/-- Subtraction with non-finite propagation. -/
def fsub : F → F → F
  | some a, some b => some (a - b)
  | _, _ => none

/-- Multiplication with non-finite propagation (numpy: `0 * inf = nan`). -/
def fmul : F → F → F
  | some a, some b => some (a * b)
  | _, _ => none

/-- Negation with non-finite propagation. -/
def fneg : F → F
  | some a => some (-a)
  | none => none

/-- Division: division by zero yields a non-finite value (`inf`/`nan`), not an error. -/
def fdiv : F → F → F
  | some a, some b => if b = 0 then none else some (a / b)
  | _, _ => none

/-- `np.log` on one value: non-positive arguments give `-inf`/`nan` (non-finite);
the finite value at a positive rational is supplied by `logVal`. -/
def flog (logVal : ℚ → ℚ) : F → F
  | some a => if 0 < a then some (logVal a) else none
  | none => none

/-- `np.exp` on one value; the finite value is supplied by `expVal`. -/
def fexp (expVal : ℚ → ℚ) : F → F
  | some a => some (expVal a)
  | none => none

/-- Binary minimum with `nan` propagation (numpy reductions propagate `nan`). -/
def fmin2 : F → F → F
  | some a, some b => some (min a b)
  | _, _ => none

/-- Binary maximum with `nan` propagation. -/
def fmax2 : F → F → F
  | some a, some b => some (max a b)
  | _, _ => none

/-- Sum of a list of values (`np.sum` accumulation; any non-finite term poisons it). -/
def fsumL (l : List F) : F := l.foldr fadd (some 0)

/-- Minimum of a nonempty list of values; `none` on the empty list
(numpy raises on zero-size reductions). -/
def fminL : List F → F
  | [] => none
  | x :: xs => xs.foldl fmin2 x

/-- Maximum of a nonempty list of values; `none` on the empty list. -/
def fmaxL : List F → F
  | [] => none
  | x :: xs => xs.foldl fmax2 x

/-- Comparison `err > thr` as numpy evaluates it: comparisons against `nan`
are false. -/
def fgt (e : F) (thr : ℚ) : Bool :=
  match e with
  | some x => decide (thr < x)
  | none => false

/-- A dynamically-typed numpy value: 0-d scalar, 1-d vector, 2-d matrix, or a
Python tuple `(coupling, log-dict)` as returned by the solver when logging. -/
inductive NpVal : Type
  | scalar (x : F)
  | vec (n : ℕ) (v : Fin n → F)
  | mat (m n : ℕ) (A : Fin m → Fin n → F)
  | tup (fst : NpVal) (lg : List F)

namespace NpVal

instance instDecEq : DecidableEq NpVal := fun a b =>
  match a, b with
  | .scalar x, .scalar y =>
      decidable_of_iff (x = y) (by simp)
  | .vec n v, .vec n' v' =>
      if h : n = n' then
        decidable_of_iff (∀ i : Fin n, v i = v' (Fin.cast h i)) (by
          subst h
          simp [funext_iff, Fin.cast])
      else
        .isFalse (by simp [h])
  | .mat m n A, .mat m' n' B =>
      if h : m = m' ∧ n = n' then
        decidable_of_iff (∀ (i : Fin m) (j : Fin n),
            A i j = B (Fin.cast h.1 i) (Fin.cast h.2 j)) (by
          obtain ⟨h1, h2⟩ := h
          subst h1; subst h2
          simp [funext_iff, Fin.cast])
      else
        .isFalse (by
          simp only [mat.injEq, not_and]
          intro h1 h2
          exact absurd ⟨h1, h2⟩ h)
  | .tup t l, .tup t' l' =>
      match instDecEq t t' with
      | .isTrue ht =>
          decidable_of_iff (l = l') (by simp [ht])
      | .isFalse ht => .isFalse (by simp [ht])
  | .scalar _, .vec _ _ => .isFalse (fun h => NpVal.noConfusion h)
  | .scalar _, .mat _ _ _ => .isFalse (fun h => NpVal.noConfusion h)
  | .scalar _, .tup _ _ => .isFalse (fun h => NpVal.noConfusion h)
  | .vec _ _, .scalar _ => .isFalse (fun h => NpVal.noConfusion h)
  | .vec _ _, .mat _ _ _ => .isFalse (fun h => NpVal.noConfusion h)
  | .vec _ _, .tup _ _ => .isFalse (fun h => NpVal.noConfusion h)
  | .mat _ _ _, .scalar _ => .isFalse (fun h => NpVal.noConfusion h)
  | .mat _ _ _, .vec _ _ => .isFalse (fun h => NpVal.noConfusion h)
  | .mat _ _ _, .tup _ _ => .isFalse (fun h => NpVal.noConfusion h)
  | .tup _ _, .scalar _ => .isFalse (fun h => NpVal.noConfusion h)
  | .tup _ _, .vec _ _ => .isFalse (fun h => NpVal.noConfusion h)
  | .tup _ _, .mat _ _ _ => .isFalse (fun h => NpVal.noConfusion h)

end NpVal

instance exceptDecEq {ε α : Type} [DecidableEq ε] [DecidableEq α] :
    DecidableEq (Except ε α) := fun a b =>
  match a, b with
  | .ok x, .ok y => decidable_of_iff (x = y) (by simp)
  | .error x, .error y => decidable_of_iff (x = y) (by simp)
  | .ok _, .error _ => .isFalse (fun h => Except.noConfusion h)
  | .error _, .ok _ => .isFalse (fun h => Except.noConfusion h)

/-- The flat list of entries of an array, in row-major order. -/
def entriesList : NpVal → List F
  | .scalar x => [x]
  | .vec _ v => List.ofFn v
  | .mat m _ A => (List.ofFn fun i : Fin m => List.ofFn (A i)).flatten
  | .tup _ _ => []

/-- Dot product of two same-length rows of values. -/
def fdot {n : ℕ} (v w : Fin n → F) : F :=
  fsumL (List.ofFn fun i => fmul (v i) (w i))

/-- `x.T`: transpose.  No-op on 0-d and 1-d arrays; a Python tuple has no
attribute `T` (AttributeError). -/
def np_transpose : NpVal → Except String NpVal
  | .scalar x => .ok (.scalar x)
  | .vec n v => .ok (.vec n v)
  | .mat m n A => .ok (.mat n m fun i j => A j i)
  | .tup _ _ => .error "AttributeError: tuple object has no attribute T"

/-- `np.dot`.  For 1-d arguments this is the inner product (a 0-d scalar);
a 0-d operand multiplies elementwise; 2-d arguments matrix-multiply.
Mismatched inner dimensions raise (ValueError). -/
def np_dot : NpVal → NpVal → Except String NpVal
  | .scalar x, .scalar y => .ok (.scalar (fmul x y))
  | .scalar x, .vec n v => .ok (.vec n fun i => fmul x (v i))
  | .scalar x, .mat m n A => .ok (.mat m n fun i j => fmul x (A i j))
  | .vec n v, .scalar x => .ok (.vec n fun i => fmul (v i) x)
  | .mat m n A, .scalar x => .ok (.mat m n fun i j => fmul (A i j) x)
  | .vec n v, .vec n' w =>
      if h : n = n' then .ok (.scalar (fdot v fun i => w (Fin.cast h i)))
      else .error "ValueError: shapes not aligned"
  | .vec k v, .mat m n A =>
      if h : k = m then
        .ok (.vec n fun j => fdot v fun i => A (Fin.cast h i) j)
      else .error "ValueError: shapes not aligned"
  | .mat m n A, .vec k w =>
      if h : n = k then
        .ok (.vec m fun i => fdot (A i) fun j => w (Fin.cast h j))
      else .error "ValueError: shapes not aligned"
  | .mat m n A, .mat k l B =>
      if h : n = k then
        .ok (.mat m l fun i j => fdot (A i) fun t => B (Fin.cast h t) j)
      else .error "ValueError: shapes not aligned"
  | .tup _ _, _ => .error "TypeError: unsupported operand (tuple)"
  | _, .tup _ _ => .error "TypeError: unsupported operand (tuple)"

/-- Elementwise binary operation with numpy broadcasting, restricted to the
shape combinations exercised by this module (0-d against anything, same-shape
arrays, and a 1-d row broadcast against a 2-d array). -/
def np_bc (op : F → F → F) : NpVal → NpVal → Except String NpVal
  | .scalar x, .scalar y => .ok (.scalar (op x y))
  | .scalar x, .vec n v => .ok (.vec n fun i => op x (v i))
  | .vec n v, .scalar x => .ok (.vec n fun i => op (v i) x)
  | .scalar x, .mat m n A => .ok (.mat m n fun i j => op x (A i j))
  | .mat m n A, .scalar x => .ok (.mat m n fun i j => op (A i j) x)
  | .vec n v, .vec n' w =>
      if h : n = n' then .ok (.vec n fun i => op (v i) (w (Fin.cast h i)))
      else .error "ValueError: operands could not be broadcast"
  | .vec k w, .mat m n A =>
      if h : n = k then .ok (.mat m n fun i j => op (w (Fin.cast h j)) (A i j))
      else .error "ValueError: operands could not be broadcast"
  | .mat m n A, .vec k w =>
      if h : n = k then .ok (.mat m n fun i j => op (A i j) (w (Fin.cast h j)))
      else .error "ValueError: operands could not be broadcast"
  | .mat m n A, .mat m' n' B =>
      if h : m = m' ∧ n = n' then
        .ok (.mat m n fun i j => op (A i j) (B (Fin.cast h.1 i) (Fin.cast h.2 j)))
      else .error "ValueError: operands could not be broadcast"
  | .tup _ _, _ => .error "TypeError: unsupported operand (tuple)"
  | _, .tup _ _ => .error "TypeError: unsupported operand (tuple)"

/-- Elementwise `+`. -/
def np_add : NpVal → NpVal → Except String NpVal := np_bc fadd

/-- Elementwise `-`. -/
def np_sub : NpVal → NpVal → Except String NpVal := np_bc fsub

/-- Elementwise `*`. -/
def np_mul : NpVal → NpVal → Except String NpVal := np_bc fmul

/-- Elementwise `np.divide` (division by zero is non-finite, not an error). -/
def np_divide : NpVal → NpVal → Except String NpVal := np_bc fdiv

/-- Elementwise unary map over an array; tuples are not arrays. -/
def npMap (f : F → F) : NpVal → Except String NpVal
  | .scalar x => .ok (.scalar (f x))
  | .vec n v => .ok (.vec n fun i => f (v i))
  | .mat m n A => .ok (.mat m n fun i j => f (A i j))
  | .tup _ _ => .error "TypeError: unsupported operand (tuple)"

/-- Unary `-`. -/
def np_neg : NpVal → Except String NpVal := npMap fneg

/-- Elementwise `np.log`. -/
def np_log (logVal : ℚ → ℚ) : NpVal → Except String NpVal := npMap (flog logVal)

/-- Elementwise `np.exp`. -/
def np_exp (expVal : ℚ → ℚ) : NpVal → Except String NpVal := npMap (fexp expVal)

/-- `x.min()`: minimum over all entries; raises on a zero-size array. -/
def np_min (x : NpVal) : Except String F :=
  match x with
  | .tup _ _ => .error "TypeError: unsupported operand (tuple)"
  | v =>
    match entriesList v with
    | [] => .error "ValueError: zero-size array reduction"
    | e :: es => .ok (fminL (e :: es))

/-- `x.max()`: maximum over all entries; raises on a zero-size array. -/
def np_max (x : NpVal) : Except String F :=
  match x with
  | .tup _ _ => .error "TypeError: unsupported operand (tuple)"
  | v =>
    match entriesList v with
    | [] => .error "ValueError: zero-size array reduction"
    | e :: es => .ok (fmaxL (e :: es))

/-- `np.sum` of one array: total over all entries (0 for an empty array). -/
def np_sum (x : NpVal) : F := fsumL (entriesList x)

/-- Shapes equal, as `np.asarray` of a Python list of arrays requires. -/
def sameShape : NpVal → NpVal → Bool
  | .scalar _, .scalar _ => true
  | .vec n _, .vec n' _ => n == n'
  | .mat m n _, .mat m' n' _ => m == m' && n == n'
  | _, _ => false

/-- `np.sum` of a Python list of arrays: the list is first stacked into one
array (so all elements must share a shape), then summed to a 0-d scalar.
`np.sum([])` is `0.0`. -/
def np_sum_list (l : List NpVal) : Except String NpVal :=
  match l with
  | [] => .ok (.scalar (some 0))
  | x :: xs =>
    if xs.all (sameShape x) then
      .ok (.scalar (fsumL ((x :: xs).map np_sum)))
    else
      .error "ValueError: inhomogeneous shapes"

/-- `np.linalg.norm`: the Frobenius norm, `sqrt` of the sum of squared
entries; the finite value of the square root is supplied by `sqrtVal`. -/
def np_norm (sqrtVal : ℚ → ℚ) (x : NpVal) : F :=
  match fsumL ((entriesList x).map fun e => fmul e e) with
  | some s => some (sqrtVal s)
  | none => none

/-- List indexing; out of range raises (IndexError). -/
def getE {α : Type} (l : List α) (i : ℕ) : Except String α :=
  match l.get? i with
  | some x => .ok x
  | none => .error "IndexError: list index out of range"

/-- The stabilization constant `1e-15` used inside `tensor_kl_loss`. -/
def floor15 : ℚ := 1 / 10 ^ 15

/-- `square_loss(a, b) = (1/2) * (a - b) ** 2`, elementwise. -/
def square_loss (a b : NpVal) : Except String NpVal :=
  np_bc (fun x y => fmul (some (1 / 2)) (fmul (fsub x y) (fsub x y))) a b

/-- `kl_loss(a, b) = a * np.log(a / b) - a + b`, elementwise.  Note: no
`1e-15` floor appears inside this logarithm in the source. -/
def kl_loss (logVal : ℚ → ℚ) (a b : NpVal) : Except String NpVal := do
  let r ← np_divide a b
  let l ← np_log logVal r
  let m ← np_mul a l
  let s ← np_sub m a
  np_add s b

/-- `tensor_square_loss(C1, C2, T)`: with `h1(a) = a` and `h2(b) = b`,
`tens = -np.dot(h1(C1), T).dot(h2(C2).T)` followed by
`tens = tens - tens.min()`.  (The source also defines `f1` and `f2`, which
the contraction never uses.) -/
def tensor_square_loss (C1 C2 T : NpVal) : Except String NpVal := do
  let a ← np_dot C1 T
  let c2t ← np_transpose C2
  let prod ← np_dot a c2t
  let tens ← np_neg prod
  let mn ← np_min tens
  np_sub tens (.scalar mn)

/-- `tensor_kl_loss(C1, C2, T)`: with `h1(a) = a` and
`h2(b) = np.log(b + 1e-15)`, `tens = -np.dot(h1(C1), T).dot(h2(C2).T)`
followed by `tens = tens - tens.min()`.  (The unused `f1` also carries the
`1e-15` floor in the source; only `h1`/`h2` enter the contraction.) -/
def tensor_kl_loss (logVal : ℚ → ℚ) (C1 C2 T : NpVal) : Except String NpVal := do
  let a ← np_dot C1 T
  let shifted ← np_add C2 (.scalar (some floor15))
  let h2C2 ← np_log logVal shifted
  let c2t ← np_transpose h2C2
  let prod ← np_dot a c2t
  let tens ← np_neg prod
  let mn ← np_min tens
  np_sub tens (.scalar mn)

/-- One term `lambdas[s] * np.dot(T[s].T, Cs[s]).dot(T[s])` of the barycenter
update sum. -/
def updateTerm (lambdas : List ℚ) (T Cs : List NpVal) (s : ℕ) :
    Except String NpVal := do
  let Ts ← getE T s
  let Css ← getE Cs s
  let lam ← getE lambdas s
  let TsT ← np_transpose Ts
  let a ← np_dot TsT Css
  let b ← np_dot a Ts
  np_mul (.scalar (some lam)) b

/-- The weighted sum
`np.sum([lambdas[s] * np.dot(T[s].T, Cs[s]).dot(T[s]) for s in range(len(T))])`
shared by both barycenter update rules.  `np.sum` of a Python list collapses
the stacked array to one 0-d scalar. -/
def update_tmpsum (lambdas : List ℚ) (T Cs : List NpVal) : Except String NpVal := do
  let terms ← (List.range T.length).mapM (updateTerm lambdas T Cs)
  np_sum_list terms

/-- `update_square_loss(p, lambdas, T, Cs) = np.divide(tmpsum, np.dot(p, p.T))`. -/
def update_square_loss (p : NpVal) (lambdas : List ℚ) (T Cs : List NpVal) :
    Except String NpVal := do
  let tmpsum ← update_tmpsum lambdas T Cs
  let pT ← np_transpose p
  let ppt ← np_dot p pT
  np_divide tmpsum ppt

/-- `update_kl_loss(p, lambdas, T, Cs) = np.exp(np.divide(tmpsum, np.dot(p, p.T)))`. -/
def update_kl_loss (expVal : ℚ → ℚ) (p : NpVal) (lambdas : List ℚ) (T Cs : List NpVal) :
    Except String NpVal := do
  let tmpsum ← update_tmpsum lambdas T Cs
  let pT ← np_transpose p
  let ppt ← np_dot p pT
  let r ← np_divide tmpsum ppt
  np_exp expVal r

/-- The loss-kind dispatch inside the solver loop:
`if loss_fun == "square_loss": tens = ... elif loss_fun == "kl_loss": tens = ...`.
There is no `else` branch, so any other tag leaves `tens` unassigned and the
use of `tens` in the same iteration raises UnboundLocalError. -/
def gwTens (logVal : ℚ → ℚ) (lossFun : String) (C1 C2 T : NpVal) :
    Except String NpVal :=
  if lossFun = "square_loss" then tensor_square_loss C1 C2 T
  else if lossFun = "kl_loss" then tensor_kl_loss logVal C1 C2 T
  else .error "UnboundLocalError: tens referenced before assignment"

/-- Loop state of `gromov_wasserstein`: the coupling `T`, the iteration
counter `cpt`, the last checkpointed error `err`, and the contents of the
caller-supplied log dict entry `err` (threaded as a list). -/
structure GWState where
  T : NpVal
  cpt : ℕ
  err : F
  errlog : List F
deriving DecidableEq

/-- One iteration of the `gromov_wasserstein` while-loop body (lines 281-304
of the source): save `Tprev`, contract, call the external `sinkhorn`, and on
every 10th value of `cpt` recompute `err = np.linalg.norm(T - Tprev)` and
append it to the log when logging is enabled.  Verbose printing is omitted
(pure output). -/
def gwBody (sinkhorn : NpVal → NpVal → NpVal → ℚ → Except String NpVal)
    (sqrtVal logVal : ℚ → ℚ) (C1 C2 p q : NpVal) (lossFun : String) (eps : ℚ)
    (logFlag : Bool) (st : GWState) : Except String GWState := do
  let Tprev := st.T
  let tens ← gwTens logVal lossFun C1 C2 st.T
  let T ← sinkhorn p q tens eps
  if st.cpt % 10 = 0 then
    let d ← np_sub T Tprev
    let err := np_norm sqrtVal d
    pure { T := T, cpt := st.cpt + 1, err := err,
           errlog := if logFlag then st.errlog ++ [err] else st.errlog }
  else
    pure { T := T, cpt := st.cpt + 1, err := st.err, errlog := st.errlog }

/-- The while-loop `while (err > stopThr and cpt < numItermax)` of
`gromov_wasserstein`.  `fuel` makes the recursion structural; it is
initialized to `numItermax` and satisfies `fuel = numItermax - cpt` at every
call, so `fuel = 0` coincides with the guard `cpt < numItermax` failing. -/
def gwIter (sinkhorn : NpVal → NpVal → NpVal → ℚ → Except String NpVal)
    (sqrtVal logVal : ℚ → ℚ) (C1 C2 p q : NpVal) (lossFun : String) (eps : ℚ)
    (logFlag : Bool) (numItermax : ℕ) (stopThr : ℚ) :
    ℕ → GWState → Except String GWState
  | 0, st => pure st
  | fuel + 1, st =>
    if fgt st.err stopThr && decide (st.cpt < numItermax) then do
      let st' ← gwBody sinkhorn sqrtVal logVal C1 C2 p q lossFun eps logFlag st
      gwIter sinkhorn sqrtVal logVal C1 C2 p q lossFun eps logFlag
        numItermax stopThr fuel st'
    else
      pure st

/-- `gromov_wasserstein(C1, C2, p, q, loss_fun, epsilon, numItermax, stopThr,
verbose, log)`.  `T = np.dot(p, q.T)` is the initialization (line 274); for
the documented 1-d marginals `np.dot` of two 1-d arrays is their inner
product, a 0-d scalar.  The caller-supplied log dict is modelled as
`log : Option (List F)` (`none` is `log=False`); when logging, the source
returns the tuple `(T, log)`.  The ambient numpy random state `rng` is
threaded for uniformity; this function never reads it. -/
def gromov_wasserstein (sinkhorn : NpVal → NpVal → NpVal → ℚ → Except String NpVal)
    (sqrtVal logVal : ℚ → ℚ) (rng : ℕ → ℚ) (C1 C2 p q : NpVal)
    (lossFun : String) (eps : ℚ) (numItermax : ℕ) (stopThr : ℚ)
    (log : Option (List F)) : Except String NpVal := do
  let qT ← np_transpose q
  let T0 ← np_dot p qT
  let st ← gwIter sinkhorn sqrtVal logVal C1 C2 p q lossFun eps log.isSome
    numItermax stopThr numItermax
    { T := T0, cpt := 0, err := some 1, errlog := log.getD [] }
  match log with
  | some _ => pure (.tup st.T st.errlog)
  | none => pure st.T

/-- The loss-kind dispatch of `gromov_wasserstein2` (lines 372-376): again no
`else` branch, so any other tag leaves `gw_dist` unassigned and the `return`
raises UnboundLocalError. -/
def gwDistTens (logVal : ℚ → ℚ) (lossFun : String) (C1 C2 T : NpVal) :
    Except String NpVal :=
  if lossFun = "square_loss" then tensor_square_loss C1 C2 T
  else if lossFun = "kl_loss" then tensor_kl_loss logVal C1 C2 T
  else .error "UnboundLocalError: gw_dist referenced before assignment"

/-- `gromov_wasserstein2`: run the solver, then
`gw_dist = np.sum(gw * tensor_*_loss(C1, C2, gw))` - a fresh contraction at
the returned coupling.  When logging, the solver result is unpacked as
`gw, logv = gromov_wasserstein(...)` and `(gw_dist, logv)` is returned. -/
def gromov_wasserstein2 (sinkhorn : NpVal → NpVal → NpVal → ℚ → Except String NpVal)
    (sqrtVal logVal : ℚ → ℚ) (rng : ℕ → ℚ) (C1 C2 p q : NpVal)
    (lossFun : String) (eps : ℚ) (numItermax : ℕ) (stopThr : ℚ)
    (log : Option (List F)) : Except String NpVal :=
  match log with
  | some l0 => do
    let r ← gromov_wasserstein sinkhorn sqrtVal logVal rng C1 C2 p q lossFun
      eps numItermax stopThr (some l0)
    match r with
    | .tup gw logv => do
      let tens ← gwDistTens logVal lossFun C1 C2 gw
      let m ← np_mul gw tens
      pure (.tup (.scalar (np_sum m)) logv)
    | _ => .error "TypeError: cannot unpack"
  | none => do
    let gw ← gromov_wasserstein sinkhorn sqrtVal logVal rng C1 C2 p q lossFun
      eps numItermax stopThr none
    let tens ← gwDistTens logVal lossFun C1 C2 gw
    let m ← np_mul gw tens
    pure (.scalar (np_sum m))

/-- Modelled from the spec: `ot.utils.dist`, the external pairwise
Euclidean-distance matrix builder, is not part of `src/` (only
`ot/gromov.py` is).  Per the spec it returns the pairwise Euclidean distance
matrix of the rows of its arguments; the finite square-root value is
supplied by `sqrtVal`.  It is used only on the `N x 2` standard-normal draw
during barycenter initialization. -/
def dist (sqrtVal : ℚ → ℚ) (N : ℕ) (X Y : Fin N → Fin 2 → ℚ) : NpVal :=
  .mat N N fun i j => some (sqrtVal ((X i 0 - Y j 0) ^ 2 + (X i 1 - Y j 1) ^ 2))

/-- The hardcoded inner stop threshold `1e-5` that `gromov_barycenters` passes
to every inner `gromov_wasserstein` solve. -/
def innerStopThr : ℚ := 1 / 10 ^ 5

/-- Loop state of `gromov_barycenters`: the barycenter estimate `C`, the
iteration counter, the last checkpointed error, the internal `error` trace
(appended at every checkpoint), and the shared log dict entry `err`. -/
structure BaryState where
  C : NpVal
  cpt : ℕ
  err : F
  errorTrace : List F
  errlog : List F
deriving DecidableEq

/-- One inner solve of the barycenter list comprehension: index `s`, current
accumulated couplings and shared-log contents in `acc`. -/
def baryStep (sinkhorn : NpVal → NpVal → NpVal → ℚ → Except String NpVal)
    (sqrtVal logVal : ℚ → ℚ) (rng : ℕ → ℚ) (Cs ps : List NpVal) (p : NpVal)
    (lossFun : String) (eps : ℚ) (numItermax : ℕ) (logFlag : Bool)
    (C : NpVal) (acc : List NpVal × List F) (s : ℕ) :
    Except String (List NpVal × List F) := do
  let Css ← getE Cs s
  let pss ← getE ps s
  let r ← gromov_wasserstein sinkhorn sqrtVal logVal rng Css C pss p
    lossFun eps numItermax innerStopThr (if logFlag then some acc.2 else none)
  let newLog := match r with | .tup _ l => l | _ => acc.2
  pure (acc.1 ++ [r], newLog)

/-- The list comprehension
`T = [gromov_wasserstein(Cs[s], C, ps[s], p, loss_fun, epsilon, numItermax,
1e-5, verbose, log) for s in range(S)]`.  The shared log dict is threaded
sequentially: each inner solve starts from the appends of the previous ones.
When logging is enabled each list element is the tuple `(coupling, log)`, as
in the source.  Returns the list `T` and the final log contents. -/
def baryInner (sinkhorn : NpVal → NpVal → NpVal → ℚ → Except String NpVal)
    (sqrtVal logVal : ℚ → ℚ) (rng : ℕ → ℚ) (Cs ps : List NpVal) (p : NpVal)
    (lossFun : String) (eps : ℚ) (numItermax : ℕ) (logFlag : Bool)
    (C : NpVal) (log0 : List F) : Except String (List NpVal × List F) :=
  (List.range Cs.length).foldlM
    (baryStep sinkhorn sqrtVal logVal rng Cs ps p lossFun eps numItermax
      logFlag C)
    ([], log0)

/-- The update-rule dispatch inside the barycenter loop (lines 456-460):
`if loss_fun == "square_loss": C = update_square_loss(...) elif ...`.
With no `else` branch, an unrecognized tag leaves `C` bound to its previous
value (no error, unlike the solver's `tens`). -/
def baryUpdate (expVal : ℚ → ℚ) (p : NpVal) (lambdas : List ℚ)
    (lossFun : String) (Cs : List NpVal) (Cprev : NpVal) (T : List NpVal) :
    Except String NpVal :=
  if lossFun = "square_loss" then update_square_loss p lambdas T Cs
  else if lossFun = "kl_loss" then update_kl_loss expVal p lambdas T Cs
  else pure Cprev

/-- One iteration of the `gromov_barycenters` while-loop body (lines 451-476):
save `Cprev`, solve the `S` inner problems, apply the update rule matching
`loss_fun` (with no `else` branch, an unrecognized tag leaves `C` unchanged),
and on every 10th value of `cpt` recompute `err = np.linalg.norm(C - Cprev)`,
append it to the internal `error` trace, and to the log when enabled. -/
def baryBody (sinkhorn : NpVal → NpVal → NpVal → ℚ → Except String NpVal)
    (sqrtVal logVal expVal : ℚ → ℚ) (rng : ℕ → ℚ) (Cs ps : List NpVal)
    (p : NpVal) (lambdas : List ℚ) (lossFun : String) (eps : ℚ)
    (numItermax : ℕ) (logFlag : Bool) (st : BaryState) :
    Except String BaryState := do
  let Cprev := st.C
  let inner ← baryInner sinkhorn sqrtVal logVal rng Cs ps p lossFun eps
    numItermax logFlag st.C st.errlog
  let C ← baryUpdate expVal p lambdas lossFun Cs st.C inner.1
  if st.cpt % 10 = 0 then
    let d ← np_sub C Cprev
    let err := np_norm sqrtVal d
    pure { C := C, cpt := st.cpt + 1, err := err,
           errorTrace := st.errorTrace ++ [err],
           errlog := if logFlag then inner.2 ++ [err] else inner.2 }
  else
    pure { C := C, cpt := st.cpt + 1, err := st.err,
           errorTrace := st.errorTrace, errlog := inner.2 }

/-- The while-loop of `gromov_barycenters`, with the same fuel discipline as
`gwIter`. -/
def baryIter (sinkhorn : NpVal → NpVal → NpVal → ℚ → Except String NpVal)
    (sqrtVal logVal expVal : ℚ → ℚ) (rng : ℕ → ℚ) (Cs ps : List NpVal)
    (p : NpVal) (lambdas : List ℚ) (lossFun : String) (eps : ℚ)
    (numItermax : ℕ) (logFlag : Bool) (stopThr : ℚ) :
    ℕ → BaryState → Except String BaryState
  | 0, st => pure st
  | fuel + 1, st =>
    if fgt st.err stopThr && decide (st.cpt < numItermax) then do
      let st' ← baryBody sinkhorn sqrtVal logVal expVal rng Cs ps p lambdas
        lossFun eps numItermax logFlag st
      baryIter sinkhorn sqrtVal logVal expVal rng Cs ps p lambdas lossFun eps
        numItermax logFlag stopThr fuel st'
    else
      pure st

/-- `gromov_barycenters(N, Cs, ps, p, lambdas, loss_fun, epsilon, numItermax,
stopThr, verbose, log)`.  Initialization draws `xalea = np.random.randn(N, 2)`
from the ambient random stream `rng` (row-major), forms `C = dist(xalea,
xalea)` and normalizes `C /= C.max()`; then the fixed-point loop runs and the
final `C` is returned.  (`T = [0 for s in range(S)]` in the source is dead
and omitted; `np.asarray` casts are no-ops in the model.) -/
def gromov_barycenters (sinkhorn : NpVal → NpVal → NpVal → ℚ → Except String NpVal)
    (sqrtVal logVal expVal : ℚ → ℚ) (rng : ℕ → ℚ) (N : ℕ)
    (Cs ps : List NpVal) (p : NpVal) (lambdas : List ℚ) (lossFun : String)
    (eps : ℚ) (numItermax : ℕ) (stopThr : ℚ) (log : Option (List F)) :
    Except String NpVal := do
  let xalea : Fin N → Fin 2 → ℚ := fun i d => rng (2 * i.val + d.val)
  let C0 := dist sqrtVal N xalea xalea
  let mx ← np_max C0
  let C ← np_divide C0 (.scalar mx)
  let st ← baryIter sinkhorn sqrtVal logVal expVal rng Cs ps p lambdas lossFun
    eps numItermax log.isSome stopThr numItermax
    { C := C, cpt := 0, err := some 1, errorTrace := [], errlog := log.getD [] }
  pure st.C

/-! ### Concrete inputs shared by several theorems -/

/-- The uniform probability vector `[0.5, 0.5]`. -/
def vec2half : NpVal := .vec 2 fun _ => some (1 / 2)

/-- The 2-point metric matrix `[[0, 1], [1, 0]]`. -/
def mat2swap : NpVal := .mat 2 2 fun i j => if i = j then some 0 else some 1

/-- The diagonal coupling `[[0.5, 0], [0, 0.5]]`. -/
def mat2diag : NpVal := .mat 2 2 fun i j => if i = j then some (1 / 2) else some 0

/-- A sinkhorn stand-in that reports if it is ever invoked. -/
def sinkNever : NpVal → NpVal → NpVal → ℚ → Except String NpVal :=
  fun _ _ _ _ => .error "sinkhorn invoked"

/-- A sinkhorn stand-in returning a fixed `1 x 1` coupling. -/
def sinkOne : NpVal → NpVal → NpVal → ℚ → Except String NpVal :=
  fun _ _ _ _ => .ok (.mat 1 1 fun _ _ => some 1)

/-! ### Evaluation lemmas for the `Except` monad and `Fin` casts -/

@[simp]
theorem ok_bind {a b : Type} (x : a) (f : a → Except String b) :
    (Except.ok x >>= f) = f x := rfl

@[simp]
theorem error_bind {a b : Type} (e : String) (f : a → Except String b) :
    ((Except.error e : Except String a) >>= f) = .error e := rfl

@[simp]
theorem fin_cast_self {n : ℕ} (h : n = n) (i : Fin n) : Fin.cast h i = i := rfl

/-!
### C1
The claim states that for 1-d marginals `p` (length ns) and `q` (length nt)
the solver initializes `T` as the outer product, a rank-1 `ns x nt` matrix,
and returns it unchanged at `numItermax = 0`.  The source line
`T = np.dot(p, q.T)` computes, for the documented 1-d marginals, the inner
product of `p` and `q`: a 0-d scalar, not a matrix.  With
`p = q = [0.5, 0.5]` and `numItermax = 0` the function returns the scalar
`0.5`; the outer product would be the matrix `[[0.25, 0.25], [0.25, 0.25]]`.
The quantification over `sinkhorn` shows the external solver is never
invoked on this run.
-/

/-- C1: at `numItermax = 0` with marginals `[0.5, 0.5]`, `gromov_wasserstein`
returns the 0-d scalar `0.5` (the inner product of the marginals), for every
external sinkhorn solver - not the outer-product matrix claimed. -/
theorem C1_gw_init_scalar_not_outer :
    (∀ (sinkhorn : NpVal → NpVal → NpVal → ℚ → Except String NpVal)
        (sqrtVal logVal : ℚ → ℚ) (rng : ℕ → ℚ),
      gromov_wasserstein sinkhorn sqrtVal logVal rng mat2swap mat2swap
        vec2half vec2half "square_loss" (1 / 10) 0 (1 / 10 ^ 9) none
        = .ok (.scalar (some (1 / 2))))
    ∧ NpVal.scalar (some (1 / 2)) ≠ .mat 2 2 fun _ _ => some (1 / 4) := by
  constructor
  · intro sinkhorn sqrtVal logVal rng
    simp [gromov_wasserstein, np_dot, np_transpose, vec2half, fdot, fsumL,
      fmul, fadd, List.ofFn_succ, gwIter]
    norm_num
  · intro h
    exact NpVal.noConfusion h

/-!
### C2
The claim states the barycenter update rules return an `N x N` matrix.  In
the source, `tmpsum = np.sum([...])` collapses the whole list of `N x N`
matrices to one 0-d scalar (total of all entries), and `ppt = np.dot(p, p.T)`
is the scalar `sum(p ** 2)` for the documented 1-d `p`; both update rules
therefore return a 0-d scalar.  With `p = [0.5, 0.5]`, `lambdas = [1]`,
`T = [[[0.5, 0], [0, 0.5]]]` and `Cs = [[[0, 1], [1, 0]]]`, the claimed
matrix is `[[0, 1], [1, 0]]` but the code returns the scalar `1.0`
(and `exp(1.0)` for the KL rule).
-/

set_option maxHeartbeats 2000000 in

/-- C2: both barycenter update rules return a 0-d scalar, not an `N x N`
matrix: on the concrete input above `update_square_loss` returns `1.0`,
`update_kl_loss` returns `exp 1.0`, and a 0-d scalar equals no 2x2 matrix. -/
theorem C2_update_rules_return_scalar :
    update_square_loss vec2half [1] [mat2diag] [mat2swap]
        = .ok (.scalar (some 1))
    ∧ (∀ expVal : ℚ → ℚ,
        update_kl_loss expVal vec2half [1] [mat2diag] [mat2swap]
          = .ok (.scalar (some (expVal 1))))
    ∧ (∀ A : Fin 2 → Fin 2 → F, NpVal.scalar (some 1) ≠ .mat 2 2 A) := by
  refine ⟨?_, ?_, fun A h => NpVal.noConfusion h⟩
  · simp [update_square_loss, update_tmpsum, updateTerm, getE, np_transpose, np_dot,
      np_mul, np_bc, np_sum_list, sameShape, np_sum, entriesList, np_divide,
      vec2half, mat2diag, mat2swap, fdot, fsumL, fmul, fadd, fdiv,
      List.ofFn_succ, List.range_succ, List.mapM, List.mapM.loop]
  · intro expVal
    simp [update_kl_loss, update_tmpsum, updateTerm, getE, np_transpose, np_dot,
      np_mul, np_bc, np_sum_list, sameShape, np_sum, entriesList, np_divide,
      np_exp, npMap, fexp, vec2half, mat2diag, mat2swap, fdot, fsumL, fmul,
      fadd, fdiv, List.ofFn_succ, List.range_succ, List.mapM, List.mapM.loop]

/-!
### C3
The claim states that for valid probability vectors `p`, `q` and symmetric
non-negative `C1`, `C2` the solver returns a `(len p, len q)` matrix with
non-negative entries.  Because `T = np.dot(p, q.T)` treats the 1-d marginals
as vectors of an inner product, marginals of different lengths already raise
`ValueError` at initialization (line 274), before the loop and before
`sinkhorn`: nothing is returned at all.
-/

/-- C3: with the valid inputs `p = [1]`, `q = [0.5, 0.5]`,
`C1 = [[0]]`, `C2 = [[0, 1], [1, 0]]` and default-like settings, the solver
raises a shape error at initialization instead of returning a `1 x 2`
non-negative matrix, for every external sinkhorn solver. -/
theorem C3_gw_raises_on_unequal_sizes :
    ∀ (sinkhorn : NpVal → NpVal → NpVal → ℚ → Except String NpVal)
      (sqrtVal logVal : ℚ → ℚ) (rng : ℕ → ℚ),
      gromov_wasserstein sinkhorn sqrtVal logVal rng
        (.mat 1 1 fun _ _ => some 0) mat2swap (.vec 1 fun _ => some 1)
        vec2half "square_loss" (1 / 10) 1000 (1 / 10 ^ 9) none
        = .error "ValueError: shapes not aligned" := by
  intro sinkhorn sqrtVal logVal rng
  simp [gromov_wasserstein, np_dot, np_transpose, vec2half]

/-!
### C4
The claim states an unrecognized `loss_fun` is reported immediately, before
any iteration (fail fast).  The source dispatch (lines 283-287) has no `else`
branch and sits inside the loop body: with `numItermax = 0` (or an initially
satisfied threshold) the solver returns successfully despite the invalid tag,
and otherwise the failure surfaces only inside the first iteration, as an
UnboundLocalError at the use of the never-assigned `tens`.
-/

/-- C4 counterexample: with the invalid tag `"not_a_loss"` and
`numItermax = 0`, `gromov_wasserstein` reports no error at all - it returns
the initial value successfully, refuting fail-fast rejection of the tag. -/
theorem C4_no_fail_fast_counterexample :
    gromov_wasserstein sinkNever id id (fun _ => 0) mat2swap mat2swap vec2half
        vec2half "not_a_loss" (1 / 10) 0 (1 / 10 ^ 9) none
        = .ok (.scalar (some (1 / 2)))
    ∧ ∀ e : String,
        (Except.ok (NpVal.scalar (some (1 / 2))) : Except String NpVal)
          ≠ .error e := by
  constructor
  · simp [gromov_wasserstein, np_dot, np_transpose, vec2half, fdot, fsumL,
      fmul, fadd, List.ofFn_succ, gwIter]
    norm_num
  · intro e h
    exact Except.noConfusion h

/-- C4 amended: an unrecognized `loss_fun` is not rejected before the loop;
whenever the loop is entered at all (initial `err = 1` above `stopThr` and a
positive budget), the run fails inside the first iteration with the
UnboundLocalError for the never-assigned `tens` - a mid-loop failure, not a
fail-fast configuration check. -/
theorem C4_unbound_local_mid_loop :
    ∀ (sinkhorn : NpVal → NpVal → NpVal → ℚ → Except String NpVal)
      (sqrtVal logVal : ℚ → ℚ) (rng : ℕ → ℚ) (C1v C2v p q : NpVal)
      (lossFun : String) (eps : ℚ) (numItermax : ℕ) (stopThr : ℚ)
      (log : Option (List F)) (qT T0 : NpVal),
      lossFun ≠ "square_loss" → lossFun ≠ "kl_loss" → stopThr < 1 →
      0 < numItermax → np_transpose q = .ok qT → np_dot p qT = .ok T0 →
      gromov_wasserstein sinkhorn sqrtVal logVal rng C1v C2v p q lossFun eps
        numItermax stopThr log
        = .error "UnboundLocalError: tens referenced before assignment" := by
  intro sinkhorn sqrtVal logVal rng C1v C2v p q lossFun eps numItermax stopThr
    log qT T0 hl1 hl2 hthr hpos hqT hT0
  obtain ⟨k, rfl⟩ := Nat.exists_eq_succ_of_ne_zero (Nat.pos_iff_ne_zero.mp hpos)
  simp [gromov_wasserstein, hqT, hT0, gwIter, fgt, hthr, gwBody, gwTens,
    hl1, hl2]

/-- C4 witness: the amended statement at a concrete invalid tag and budget 1. -/
theorem C4_unbound_local_mid_loop_witness :
    gromov_wasserstein sinkNever id id (fun _ => 0) mat2swap mat2swap vec2half
      vec2half "bad_loss" (1 / 10) 1 (1 / 10 ^ 9) none
      = .error "UnboundLocalError: tens referenced before assignment" :=
  C4_unbound_local_mid_loop sinkNever id id (fun _ => 0) mat2swap mat2swap
    vec2half vec2half "bad_loss" (1 / 10) 1 (1 / 10 ^ 9) none vec2half
    (.scalar (some (1 / 2))) (by decide) (by decide) (by norm_num)
    (by norm_num) (by simp [np_transpose, vec2half])
    (by simp [np_dot, vec2half, fdot, fsumL, fmul, fadd, List.ofFn_succ]
        norm_num)

/-! ### All-finite matrices and the min-shift infrastructure -/

/-- A matrix of finite values. -/
def matQ (m n : ℕ) (A : Fin m → Fin n → ℚ) : NpVal :=
  .mat m n fun i j => some (A i j)

theorem fsumL_map_some (l : List ℚ) : fsumL (l.map some) = some l.sum := by
  induction l with
  | nil => rfl
  | cons x xs ih =>
    simp only [List.map_cons, fsumL, List.foldr_cons, List.sum_cons] at ih ⊢
    rw [ih]
    simp [fadd]

theorem fdot_some {n : ℕ} (a b : Fin n → ℚ) :
    fdot (fun i => some (a i)) (fun i => some (b i))
      = some (∑ i, a i * b i) := by
  unfold fdot
  have h : (List.ofFn fun i => fmul (some (a i)) (some (b i)))
      = (List.ofFn fun i => a i * b i).map some := by
    rw [List.map_ofFn]
    simp only [fmul]
    rfl
  rw [h, fsumL_map_some, List.sum_ofFn]

/-- The entries of a finite matrix as a list of rationals, row-major. -/
def qEntries {m n : ℕ} (A : Fin m → Fin n → ℚ) : List ℚ :=
  (List.ofFn fun i : Fin m => List.ofFn (A i)).flatten

theorem entriesList_matQ {m n : ℕ} (A : Fin m → Fin n → ℚ) :
    entriesList (matQ m n A) = (qEntries A).map some := by
  simp only [entriesList, matQ, qEntries, List.map_flatten, List.map_ofFn]
  refine congrArg List.flatten (congrArg List.ofFn (funext fun i => ?_))
  rw [Function.comp_apply, List.map_ofFn]
  rfl

theorem qEntries_map {m n : ℕ} (g : ℚ → ℚ) (A : Fin m → Fin n → ℚ) :
    qEntries (fun i j => g (A i j)) = (qEntries A).map g := by
  simp only [qEntries, List.map_flatten, List.map_ofFn]
  refine congrArg List.flatten (congrArg List.ofFn (funext fun i => ?_))
  rw [Function.comp_apply, List.map_ofFn]
  rfl

theorem qEntries_length {m n : ℕ} (A : Fin m → Fin n → ℚ) :
    (qEntries A).length = m * n := by
  simp [qEntries, List.length_flatten, List.map_ofFn, Function.comp,
    List.sum_ofFn, Finset.sum_const, mul_comm]

theorem qEntries_ne_nil {m n : ℕ} (hm : 0 < m) (hn : 0 < n)
    (A : Fin m → Fin n → ℚ) : qEntries A ≠ [] := by
  intro h
  have hlen := qEntries_length A
  rw [h] at hlen
  simp at hlen
  rcases hlen with h0 | h0
  · exact absurd h0 hm.ne'
  · exact absurd h0 hn.ne'

theorem fminL_map_some (x : ℚ) (xs : List ℚ) :
    fminL (some x :: xs.map some) = some (xs.foldl min x) := by
  induction xs generalizing x with
  | nil => rfl
  | cons y ys ih =>
    simp only [List.map_cons, fminL, List.foldl_cons, fmin2] at ih ⊢
    exact ih (min x y)

theorem foldl_min_sub (xs : List ℚ) (x c : ℚ) :
    (xs.map fun t => t - c).foldl min (x - c) = xs.foldl min x - c := by
  induction xs generalizing x with
  | nil => rfl
  | cons y ys ih =>
    simp only [List.map_cons, List.foldl_cons, min_sub_sub_right]
    exact ih (min x y)

/-- `np.min` of a nonempty finite matrix is the finite minimum of its entries. -/
theorem np_min_matQ {m n : ℕ} (hm : 0 < m) (hn : 0 < n)
    (A : Fin m → Fin n → ℚ) :
    ∃ c : ℚ, np_min (matQ m n A) = .ok (some c) ∧
      np_min (matQ m n fun i j => A i j - c) = .ok (some 0) := by
  obtain ⟨e, es, hq⟩ := List.exists_cons_of_ne_nil (qEntries_ne_nil hm hn A)
  have hsub : qEntries (fun i j => A i j - es.foldl min e)
      = (qEntries A).map fun t => t - es.foldl min e :=
    qEntries_map (fun t => t - es.foldl min e) A
  refine ⟨es.foldl min e, ?_, ?_⟩
  · show (match entriesList (matQ m n A) with
      | [] => Except.error "ValueError: zero-size array reduction"
      | e :: es => Except.ok (fminL (e :: es))) = _
    rw [entriesList_matQ, hq]
    simp [fminL_map_some]
  · show (match entriesList (matQ m n fun i j => A i j - es.foldl min e) with
      | [] => Except.error "ValueError: zero-size array reduction"
      | e :: es => Except.ok (fminL (e :: es))) = _
    rw [entriesList_matQ, hsub, hq]
    simp only [List.map_cons, fminL_map_some]
    rw [foldl_min_sub]
    simp

theorem np_dot_matQ {m n p : ℕ} (A : Fin m → Fin n → ℚ)
    (B : Fin n → Fin p → ℚ) :
    np_dot (matQ m n A) (matQ n p B)
      = .ok (matQ m p fun i j => ∑ t, A i t * B t j) := by
  simp only [np_dot, matQ, fin_cast_self, eq_self_iff_true, dite_true,
    Except.ok.injEq, NpVal.mat.injEq, heq_eq_eq, true_and]
  funext i j
  exact fdot_some (fun t => A i t) (fun t => B t j)

theorem np_transpose_matQ {m n : ℕ} (A : Fin m → Fin n → ℚ) :
    np_transpose (matQ m n A) = .ok (matQ n m fun i j => A j i) := rfl

theorem np_neg_matQ {m n : ℕ} (A : Fin m → Fin n → ℚ) :
    np_neg (matQ m n A) = .ok (matQ m n fun i j => -A i j) := by
  simp [np_neg, npMap, matQ, fneg]

theorem np_sub_matQ_scalar {m n : ℕ} (A : Fin m → Fin n → ℚ) (c : ℚ) :
    np_sub (matQ m n A) (.scalar (some c))
      = .ok (matQ m n fun i j => A i j - c) := by
  simp [np_sub, np_bc, matQ, fsub]

theorem np_add_matQ_scalar {m n : ℕ} (A : Fin m → Fin n → ℚ) (c : ℚ) :
    np_add (matQ m n A) (.scalar (some c))
      = .ok (matQ m n fun i j => A i j + c) := by
  simp [np_add, np_bc, matQ, fadd]

theorem np_log_matQ {m n : ℕ} (logVal : ℚ → ℚ) (A : Fin m → Fin n → ℚ)
    (h : ∀ i j, 0 < A i j) :
    np_log logVal (matQ m n A) = .ok (matQ m n fun i j => logVal (A i j)) := by
  simp only [np_log, npMap, matQ, Except.ok.injEq, NpVal.mat.injEq,
    heq_eq_eq, true_and]
  funext i j
  simp [flog, if_pos (h i j)]

/-- The shift step `mn = tens.min(); tens - mn` on a nonempty finite matrix:
the result is a finite matrix whose minimum entry is exactly 0. -/
theorem min_shift_bind {m n : ℕ} (hm : 0 < m) (hn : 0 < n)
    (W : Fin m → Fin n → ℚ) :
    ∃ R : Fin m → Fin n → ℚ,
      (np_min (matQ m n W) >>= fun mn => np_sub (matQ m n W) (.scalar mn))
        = .ok (matQ m n R) ∧ np_min (matQ m n R) = .ok (some 0) := by
  obtain ⟨c, hc, hc0⟩ := np_min_matQ hm hn W
  refine ⟨fun i j => W i j - c, ?_, hc0⟩
  rw [hc, ok_bind, np_sub_matQ_scalar]

/-- `tensor_square_loss` on nonempty finite matrices: the result is a finite
matrix whose minimum entry is exactly 0. -/
theorem tensor_square_loss_matQ {ns nt : ℕ} (hns : 0 < ns) (hnt : 0 < nt)
    (A : Fin ns → Fin ns → ℚ) (B : Fin nt → Fin nt → ℚ)
    (Tm : Fin ns → Fin nt → ℚ) :
    ∃ R : Fin ns → Fin nt → ℚ,
      tensor_square_loss (matQ ns ns A) (matQ nt nt B) (matQ ns nt Tm)
        = .ok (matQ ns nt R) ∧ np_min (matQ ns nt R) = .ok (some 0) := by
  simp only [tensor_square_loss, np_dot_matQ, ok_bind, np_transpose_matQ,
    np_neg_matQ]
  exact min_shift_bind hns hnt _

/-- `tensor_kl_loss` on nonempty finite matrices with non-negative `C2`:
thanks to the `1e-15` floor inside the logarithm the result is a finite
matrix, and its minimum entry is exactly 0. -/
theorem tensor_kl_loss_matQ {ns nt : ℕ} (hns : 0 < ns) (hnt : 0 < nt)
    (logVal : ℚ → ℚ) (A : Fin ns → Fin ns → ℚ) (B : Fin nt → Fin nt → ℚ)
    (Tm : Fin ns → Fin nt → ℚ) (hB : ∀ i j, 0 ≤ B i j) :
    ∃ R : Fin ns → Fin nt → ℚ,
      tensor_kl_loss logVal (matQ ns ns A) (matQ nt nt B) (matQ ns nt Tm)
        = .ok (matQ ns nt R) ∧ np_min (matQ ns nt R) = .ok (some 0) := by
  have hlog := np_log_matQ logVal (fun i j => B i j + floor15)
    (fun i j => add_pos_of_nonneg_of_pos (hB i j) (by norm_num [floor15]))
  simp only [tensor_kl_loss, np_dot_matQ, ok_bind, np_add_matQ_scalar, hlog,
    np_transpose_matQ, np_neg_matQ]
  exact min_shift_bind hns hnt _

/-!
### C5
The claim states every logarithm evaluated by the KL kernel has the `1e-15`
floor, for both `kl_loss` and `tensor_kl_loss`, so zero entries produce
finite outputs.  The floor is real in `tensor_kl_loss` (both inside the
unused `f1` and inside `h2`), but the standalone `kl_loss` (line 34) computes
`a * np.log(a / b) - a + b` with no floor at all: at `a = 0, b = 1` the
logarithm receives exactly 0, `np.log(0) = -inf` and `0 * -inf = nan` - a
non-finite output (`none` in the model).  The amended statement keeps the
guarantee for `tensor_kl_loss`, whose floored logarithms keep every output
entry finite on non-negative inputs containing exact zeros.
-/

/-- C5 counterexample: `kl_loss` has no floor: at the zero-containing input
`a = 0, b = 1` it returns a non-finite value (`0 * log 0 = nan`), refuting
both 'every logarithm has the floor added' and 'every output entry is
finite'. -/
theorem C5_kl_loss_nan_at_zero :
    kl_loss id (.scalar (some 0)) (.scalar (some 1)) = .ok (.scalar none) := by
  simp [kl_loss, np_divide, np_log, np_mul, np_sub, np_add, np_bc, npMap,
    fdiv, flog, fmul, fsub, fadd]

/-- C5 amended: `tensor_kl_loss` adds the `1e-15` floor inside its
logarithms, so on nonempty finite inputs with non-negative `C2` (in
particular inputs containing exact zeros) it raises no error and every
output entry is finite. -/
theorem C5_tensor_kl_floored_finite :
    ∀ (logVal : ℚ → ℚ) (ns nt : ℕ) (A : Fin ns → Fin ns → ℚ)
      (B : Fin nt → Fin nt → ℚ) (Tm : Fin ns → Fin nt → ℚ),
      0 < ns → 0 < nt → (∀ i j, 0 ≤ B i j) →
      ∃ R : Fin ns → Fin nt → ℚ,
        tensor_kl_loss logVal (matQ ns ns A) (matQ nt nt B) (matQ ns nt Tm)
          = .ok (.mat ns nt fun i j => some (R i j)) := by
  intro logVal ns nt A B Tm hns hnt hB
  obtain ⟨R, hR, _⟩ := tensor_kl_loss_matQ hns hnt logVal A B Tm hB
  exact ⟨R, hR⟩

/-- C5 witness: the amended statement at the all-zero `1 x 1` input. -/
theorem C5_tensor_kl_floored_finite_witness :
    ∃ R : Fin 1 → Fin 1 → ℚ,
      tensor_kl_loss id (matQ 1 1 fun _ _ => 0) (matQ 1 1 fun _ _ => 0)
          (matQ 1 1 fun _ _ => 0)
        = .ok (.mat 1 1 fun i j => some (R i j)) :=
  C5_tensor_kl_floored_finite id 1 1 (fun _ _ => 0) (fun _ _ => 0)
    (fun _ _ => 0) (by decide) (by decide) (fun i j => le_refl 0)

/-!
### C6
The claim states the shifted contraction has minimum exactly 0 for every
input of compatible shapes and either kernel.  For finite inputs this is
true of the square kernel, and of the KL kernel when `C2` is non-negative
(the data-model assumption for metric matrices).  It fails for the KL
kernel on a negative `C2` entry: `np.log(-1 + 1e-15) = nan` poisons the
contraction, `tens.min()` is `nan`, and the returned matrix is all-`nan`,
whose minimum is `nan`, not 0.
-/

/-- C6 counterexample: with `C2 = [[-1]]` the KL contraction is `nan`
(non-finite), so the minimum of the returned matrix is not 0. -/
theorem C6_kl_min_not_zero_on_negative :
    (tensor_kl_loss id (.mat 1 1 fun _ _ => some 1)
        (.mat 1 1 fun _ _ => some (-1)) (.mat 1 1 fun _ _ => some 1)
      >>= np_min) ≠ .ok (some 0) := by
  have h : (tensor_kl_loss id (.mat 1 1 fun _ _ => some 1)
        (.mat 1 1 fun _ _ => some (-1)) (.mat 1 1 fun _ _ => some 1)
      >>= np_min) = .ok (none : F) := by
    have hneg : ¬ (0 : ℚ) < -1 + floor15 := by norm_num [floor15]
    simp [tensor_kl_loss, np_dot, np_add, np_bc, fadd, np_log, npMap, flog,
      hneg, np_transpose, np_neg, fneg, fmul, fdot, fsumL, np_min,
      entriesList, np_sub, fsub, fmin2, fminL, List.ofFn_succ]
  rw [h]
  intro hctr
  simp at hctr

/-- C6 amended: on nonempty finite matrices the minimum of the shifted
contraction is exactly 0 for the square kernel unconditionally, and for the
KL kernel whenever `C2` is non-negative. -/
theorem C6_min_shift_zero :
    ∀ (logVal : ℚ → ℚ) (ns nt : ℕ) (A : Fin ns → Fin ns → ℚ)
      (B : Fin nt → Fin nt → ℚ) (Tm : Fin ns → Fin nt → ℚ),
      0 < ns → 0 < nt →
      ((tensor_square_loss (matQ ns ns A) (matQ nt nt B) (matQ ns nt Tm)
          >>= np_min) = .ok (some 0))
      ∧ ((∀ i j, 0 ≤ B i j) →
          (tensor_kl_loss logVal (matQ ns ns A) (matQ nt nt B) (matQ ns nt Tm)
            >>= np_min) = .ok (some 0)) := by
  intro logVal ns nt A B Tm hns hnt
  constructor
  · obtain ⟨R, hR, h0⟩ := tensor_square_loss_matQ hns hnt A B Tm
    rw [hR, ok_bind]
    exact h0
  · intro hB
    obtain ⟨R, hR, h0⟩ := tensor_kl_loss_matQ hns hnt logVal A B Tm hB
    rw [hR, ok_bind]
    exact h0

/-- C6 witness: the amended statement at a concrete `1 x 1` input. -/
theorem C6_min_shift_zero_witness :
    ((tensor_square_loss (matQ 1 1 fun _ _ => 1) (matQ 1 1 fun _ _ => 1)
        (matQ 1 1 fun _ _ => 1) >>= np_min) = .ok (some 0))
    ∧ ((tensor_kl_loss id (matQ 1 1 fun _ _ => 1) (matQ 1 1 fun _ _ => 1)
        (matQ 1 1 fun _ _ => 1) >>= np_min) = .ok (some 0)) := by
  have h := C6_min_shift_zero id 1 1 (fun _ _ => 1) (fun _ _ => 1)
    (fun _ _ => 1) (by decide) (by decide)
  exact ⟨h.1, h.2 fun i j => by norm_num⟩

/-! ### Inversion of `Except` binds -/

theorem bind_ok_inv {a b : Type} {x : Except String a} {f : a → Except String b}
    {r : b} (h : (x >>= f) = .ok r) : ∃ v, x = .ok v ∧ f v = .ok r := by
  cases x with
  | ok v => exact ⟨v, rfl, h⟩
  | error e => exact Except.noConfusion h

/-!
### C9
`gromov_wasserstein2` runs the solver and evaluates
`np.sum(gw * tensor_*_loss(C1, C2, gw))` - a contraction recomputed freshly
at the returned coupling `gw`, not the `tens` of the last loop iteration
(which was contracted at the previous iterate).
-/

/-- C9: whenever the solve completes with coupling `T`,
`gromov_wasserstein2` returns exactly `sum(T * tensor_loss(C1, C2, T))` with
the contraction recomputed at that final `T`; with logging, the same value
is paired with the returned log.  Stated for both recognized kernels via the
dispatch on `lossFun`. -/
theorem C9_gw2_fresh_contraction :
    ∀ (sinkhorn : NpVal → NpVal → NpVal → ℚ → Except String NpVal)
      (sqrtVal logVal : ℚ → ℚ) (rng : ℕ → ℚ) (C1v C2v p q : NpVal)
      (lossFun : String) (eps : ℚ) (numItermax : ℕ) (stopThr : ℚ),
      lossFun = "square_loss" ∨ lossFun = "kl_loss" →
      (∀ T : NpVal,
        gromov_wasserstein sinkhorn sqrtVal logVal rng C1v C2v p q lossFun
          eps numItermax stopThr none = .ok T →
        gromov_wasserstein2 sinkhorn sqrtVal logVal rng C1v C2v p q lossFun
          eps numItermax stopThr none
          = ((if lossFun = "square_loss" then tensor_square_loss C1v C2v T
              else tensor_kl_loss logVal C1v C2v T) >>= fun tens =>
             np_mul T tens >>= fun m => pure (.scalar (np_sum m))))
      ∧ (∀ (l0 : List F) (T : NpVal) (lg : List F),
          gromov_wasserstein sinkhorn sqrtVal logVal rng C1v C2v p q lossFun
            eps numItermax stopThr (some l0) = .ok (.tup T lg) →
          gromov_wasserstein2 sinkhorn sqrtVal logVal rng C1v C2v p q lossFun
            eps numItermax stopThr (some l0)
            = ((if lossFun = "square_loss" then tensor_square_loss C1v C2v T
                else tensor_kl_loss logVal C1v C2v T) >>= fun tens =>
               np_mul T tens >>= fun m =>
                 pure (.tup (.scalar (np_sum m)) lg))) := by
  intro sinkhorn sqrtVal logVal rng C1v C2v p q lossFun eps numItermax
    stopThr hl
  constructor
  · intro T h
    rcases hl with rfl | rfl <;>
      simp [gromov_wasserstein2, h, gwDistTens]
  · intro l0 T lg h
    rcases hl with rfl | rfl <;>
      simp [gromov_wasserstein2, h, gwDistTens]

/-- C9 witness: the no-log conjunct at a concrete completed solve
(`numItermax = 0`, square loss). -/
theorem C9_gw2_fresh_contraction_witness :
    gromov_wasserstein2 sinkNever id id (fun _ => 0) mat2swap mat2swap
      vec2half vec2half "square_loss" (1 / 10) 0 (1 / 10 ^ 9) none
      = ((if ("square_loss" : String) = "square_loss" then
            tensor_square_loss mat2swap mat2swap (.scalar (some (1 / 2)))
          else tensor_kl_loss id mat2swap mat2swap (.scalar (some (1 / 2))))
          >>= fun tens => np_mul (.scalar (some (1 / 2))) tens >>= fun m =>
            pure (.scalar (np_sum m))) :=
  (C9_gw2_fresh_contraction sinkNever id id (fun _ => 0) mat2swap mat2swap
      vec2half vec2half "square_loss" (1 / 10) 0 (1 / 10 ^ 9) (Or.inl rfl)).1
    (.scalar (some (1 / 2)))
    (by simp [gromov_wasserstein, np_dot, np_transpose, vec2half, fdot,
          fsumL, fmul, fadd, List.ofFn_succ, gwIter]
        norm_num)

/-!
### C10
Neither `gromov_wasserstein` nor `gromov_wasserstein2` reads the ambient
random stream, so with a fixed (deterministic) `sinkhorn` two runs with
identical arguments coincide; `gromov_barycenters` draws its initial `C`
from the stream, and two runs with identical arguments can differ.
-/

/-- Stream of standard-normal draws: three points `(0,0)`, `(0.5,0)`, `(1,0)`. -/
def rngA : ℕ → ℚ := fun k => [0, 0, 1/2, 0, 1, 0].getD k 0

/-- Stream of standard-normal draws: three points `(0,0)`, `(0.25,0)`, `(1,0)`. -/
def rngB : ℕ → ℚ := fun k => [0, 0, 1/4, 0, 1, 0].getD k 0

/-- C10: the solver and the discrepancy wrapper are independent of the
ambient random stream (determinism given a deterministic `sinkhorn`), while
`gromov_barycenters` is not: two streams are exhibited for which identical
arguments give different barycenters (already at `numItermax = 0`, where
the result is the normalized random initialization). -/
theorem C10_rng_independence :
    (∀ (sinkhorn : NpVal → NpVal → NpVal → ℚ → Except String NpVal)
        (sqrtVal logVal : ℚ → ℚ) (r1 r2 : ℕ → ℚ) (C1v C2v p q : NpVal)
        (lossFun : String) (eps : ℚ) (numItermax : ℕ) (stopThr : ℚ)
        (log : Option (List F)),
        gromov_wasserstein sinkhorn sqrtVal logVal r1 C1v C2v p q lossFun
          eps numItermax stopThr log
        = gromov_wasserstein sinkhorn sqrtVal logVal r2 C1v C2v p q lossFun
          eps numItermax stopThr log)
    ∧ (∀ (sinkhorn : NpVal → NpVal → NpVal → ℚ → Except String NpVal)
        (sqrtVal logVal : ℚ → ℚ) (r1 r2 : ℕ → ℚ) (C1v C2v p q : NpVal)
        (lossFun : String) (eps : ℚ) (numItermax : ℕ) (stopThr : ℚ)
        (log : Option (List F)),
        gromov_wasserstein2 sinkhorn sqrtVal logVal r1 C1v C2v p q lossFun
          eps numItermax stopThr log
        = gromov_wasserstein2 sinkhorn sqrtVal logVal r2 C1v C2v p q lossFun
          eps numItermax stopThr log)
    ∧ (∃ r1 r2 : ℕ → ℚ,
        gromov_barycenters sinkNever id id id r1 3 [] [] (.scalar (some 1))
          [] "square_loss" (1 / 10) 0 (1 / 10 ^ 9) none
        ≠ gromov_barycenters sinkNever id id id r2 3 [] [] (.scalar (some 1))
          [] "square_loss" (1 / 10) 0 (1 / 10 ^ 9) none) := by
  refine ⟨fun _ _ _ _ _ _ _ _ _ _ _ _ _ _ => rfl,
          fun _ _ _ _ _ _ _ _ _ _ _ _ _ _ => rfl, ?_⟩
  refine ⟨rngA, rngB, ?_⟩
  have hshape : ∀ rng : ℕ → ℚ,
      gromov_barycenters sinkNever id id id rng 3 [] [] (.scalar (some 1))
        [] "square_loss" (1 / 10) 0 (1 / 10 ^ 9) none
      = (np_max (dist id 3 (fun i d => rng (2 * i.val + d.val))
            (fun i d => rng (2 * i.val + d.val))) >>= fun mx =>
         np_divide (dist id 3 (fun i d => rng (2 * i.val + d.val))
            (fun i d => rng (2 * i.val + d.val))) (.scalar mx)) := by
    intro rng
    simp only [gromov_barycenters, baryIter, Option.isSome_none,
      Option.getD_none]
    cases hmx : np_max (dist id 3 (fun i d => rng (2 * i.val + d.val))
        (fun i d => rng (2 * i.val + d.val))) with
    | error e => rfl
    | ok mx =>
      simp only [ok_bind]
      cases hC : np_divide (dist id 3 (fun i d => rng (2 * i.val + d.val))
          (fun i d => rng (2 * i.val + d.val))) (.scalar mx) with
      | error e => rfl
      | ok C => rfl
  have hmA : np_max (dist id 3 (fun i d => rngA (2 * i.val + d.val))
      (fun i d => rngA (2 * i.val + d.val))) = .ok (some 1) := by
    simp only [np_max, dist, entriesList, List.ofFn_succ, List.ofFn_zero,
      List.flatten_cons, List.flatten_nil, List.cons_append, List.nil_append,
      fmaxL, fmax2, List.foldl_cons, List.foldl_nil, rngA, List.getD,
      List.get?, id_eq]
    norm_num [max_def]
  have hmB : np_max (dist id 3 (fun i d => rngB (2 * i.val + d.val))
      (fun i d => rngB (2 * i.val + d.val))) = .ok (some 1) := by
    simp only [np_max, dist, entriesList, List.ofFn_succ, List.ofFn_zero,
      List.flatten_cons, List.flatten_nil, List.cons_append, List.nil_append,
      fmaxL, fmax2, List.foldl_cons, List.foldl_nil, rngB, List.getD,
      List.get?, id_eq]
    norm_num [max_def]
  intro h
  rw [hshape rngA, hshape rngB, hmA, hmB, ok_bind, ok_bind] at h
  simp only [np_divide, np_bc] at h
  injection h with hok
  injection hok with hm hn hAB
  have h01 := congrFun (congrFun hAB 0) 1
  simp only [dist, fdiv, rngA, rngB, List.getD, List.get?, id_eq] at h01
  norm_num at h01

/-!
### C8
Checkpoint policy of the two fixed-point loops: the error is recomputed as
the norm of the difference with the previous iterate exactly on iterations
with `cpt % 10 == 0`; at such a checkpoint exactly one value is appended to
the internal trace (barycenter loop) and, when logging is enabled, exactly
one value to the shared log entry; on every other iteration `err` and the
trace are left untouched (so convergence can go undetected for up to 9
iterations).  The two lemmas below characterize one execution of each loop
body; the claim theorem conjoins them.
-/

theorem gwBody_spec
    (sinkhorn : NpVal → NpVal → NpVal → ℚ → Except String NpVal)
    (sqrtVal logVal : ℚ → ℚ) (C1v C2v p q : NpVal) (lossFun : String)
    (eps : ℚ) (logFlag : Bool) (st st' : GWState)
    (h : gwBody sinkhorn sqrtVal logVal C1v C2v p q lossFun eps logFlag st
      = .ok st') :
    st'.cpt = st.cpt + 1 ∧
    (st.cpt % 10 = 0 → ∃ d, np_sub st'.T st.T = .ok d ∧
      st'.err = np_norm sqrtVal d ∧
      st'.errlog = if logFlag then st.errlog ++ [st'.err] else st.errlog) ∧
    (st.cpt % 10 ≠ 0 → st'.err = st.err ∧ st'.errlog = st.errlog) := by
  unfold gwBody at h
  obtain ⟨tens, htens, h⟩ := bind_ok_inv h
  obtain ⟨T, hT, h⟩ := bind_ok_inv h
  by_cases hc : st.cpt % 10 = 0
  · rw [if_pos hc] at h
    obtain ⟨d, hd, h⟩ := bind_ok_inv h
    cases Except.ok.inj h
    exact ⟨rfl, fun _ => ⟨d, hd, rfl, rfl⟩, fun hnc => absurd hc hnc⟩
  · rw [if_neg hc] at h
    cases Except.ok.inj h
    exact ⟨rfl, fun hc0 => absurd hc0 hc, fun _ => ⟨rfl, rfl⟩⟩

theorem baryBody_spec
    (sinkhorn : NpVal → NpVal → NpVal → ℚ → Except String NpVal)
    (sqrtVal logVal expVal : ℚ → ℚ) (rng : ℕ → ℚ) (Cs ps : List NpVal)
    (p : NpVal) (lambdas : List ℚ) (lossFun : String) (eps : ℚ)
    (numItermax : ℕ) (logFlag : Bool) (st st' : BaryState)
    (h : baryBody sinkhorn sqrtVal logVal expVal rng Cs ps p lambdas lossFun
      eps numItermax logFlag st = .ok st') :
    st'.cpt = st.cpt + 1 ∧
    ∃ TL, baryInner sinkhorn sqrtVal logVal rng Cs ps p lossFun eps
        numItermax logFlag st.C st.errlog = .ok TL ∧
      (st.cpt % 10 = 0 → ∃ d, np_sub st'.C st.C = .ok d ∧
        st'.err = np_norm sqrtVal d ∧
        st'.errorTrace = st.errorTrace ++ [st'.err] ∧
        st'.errlog = if logFlag then TL.2 ++ [st'.err] else TL.2) ∧
      (st.cpt % 10 ≠ 0 → st'.err = st.err ∧
        st'.errorTrace = st.errorTrace ∧ st'.errlog = TL.2) := by
  unfold baryBody at h
  obtain ⟨TL, hTL, h⟩ := bind_ok_inv h
  obtain ⟨C, hC, h⟩ := bind_ok_inv h
  by_cases hc : st.cpt % 10 = 0
  · rw [if_pos hc] at h
    obtain ⟨d, hd, h⟩ := bind_ok_inv h
    cases Except.ok.inj h
    exact ⟨rfl, TL, hTL, fun _ => ⟨d, hd, rfl, rfl, rfl⟩,
      fun hnc => absurd hc hnc⟩
  · rw [if_neg hc] at h
    cases Except.ok.inj h
    exact ⟨rfl, TL, hTL, fun hc0 => absurd hc0 hc, fun _ => ⟨rfl, rfl, rfl⟩⟩

/-- C8: in both loop bodies the iteration counter advances by one; exactly
when `cpt % 10 = 0` the error is recomputed as the norm of the difference of
the new iterate with the previous one, one value (that error) is appended to
the barycenter error trace, and - when logging is enabled - exactly one value
is appended to the shared log beyond the inner solvers' own appends; on
non-checkpoint iterations the error, the trace and the log (beyond the inner
appends) are unchanged. -/
theorem C8_checkpoint_policy :
    (∀ (sinkhorn : NpVal → NpVal → NpVal → ℚ → Except String NpVal)
       (sqrtVal logVal : ℚ → ℚ) (C1v C2v p q : NpVal) (lossFun : String)
       (eps : ℚ) (logFlag : Bool) (st st' : GWState),
       gwBody sinkhorn sqrtVal logVal C1v C2v p q lossFun eps logFlag st
         = .ok st' →
       st'.cpt = st.cpt + 1 ∧
       (st.cpt % 10 = 0 → ∃ d, np_sub st'.T st.T = .ok d ∧
         st'.err = np_norm sqrtVal d ∧
         st'.errlog = if logFlag then st.errlog ++ [st'.err] else st.errlog) ∧
       (st.cpt % 10 ≠ 0 → st'.err = st.err ∧ st'.errlog = st.errlog))
    ∧ (∀ (sinkhorn : NpVal → NpVal → NpVal → ℚ → Except String NpVal)
       (sqrtVal logVal expVal : ℚ → ℚ) (rng : ℕ → ℚ) (Cs ps : List NpVal)
       (p : NpVal) (lambdas : List ℚ) (lossFun : String) (eps : ℚ)
       (numItermax : ℕ) (logFlag : Bool) (st st' : BaryState),
       baryBody sinkhorn sqrtVal logVal expVal rng Cs ps p lambdas lossFun
         eps numItermax logFlag st = .ok st' →
       st'.cpt = st.cpt + 1 ∧
       ∃ TL, baryInner sinkhorn sqrtVal logVal rng Cs ps p lossFun eps
           numItermax logFlag st.C st.errlog = .ok TL ∧
         (st.cpt % 10 = 0 → ∃ d, np_sub st'.C st.C = .ok d ∧
           st'.err = np_norm sqrtVal d ∧
           st'.errorTrace = st.errorTrace ++ [st'.err] ∧
           st'.errlog = if logFlag then TL.2 ++ [st'.err] else TL.2) ∧
         (st.cpt % 10 ≠ 0 → st'.err = st.err ∧
           st'.errorTrace = st.errorTrace ∧ st'.errlog = TL.2)) :=
  ⟨fun sinkhorn sqrtVal logVal C1v C2v p q lossFun eps logFlag st st' h =>
      gwBody_spec sinkhorn sqrtVal logVal C1v C2v p q lossFun eps logFlag
        st st' h,
   fun sinkhorn sqrtVal logVal expVal rng Cs ps p lambdas lossFun eps
      numItermax logFlag st st' h =>
      baryBody_spec sinkhorn sqrtVal logVal expVal rng Cs ps p lambdas
        lossFun eps numItermax logFlag st st' h⟩

/-- The `1 x 1` zero metric matrix. -/
def mat1zero : NpVal := .mat 1 1 fun _ _ => some 0

/-- The length-1 unit weight vector. -/
def vec1one : NpVal := .vec 1 fun _ => some 1

/-- C8 witness: the solver-body conclusion at a concrete checkpoint
iteration (`cpt = 0`). -/
theorem C8_checkpoint_policy_witness :
    ∃ d, np_sub (NpVal.mat 1 1 fun _ _ => some 1) (.scalar (some 1)) = .ok d
      ∧ (some 0 : F) = np_norm id d
      ∧ ([] : List F) = if false then [] ++ [(some 0 : F)] else ([] : List F) := by
  have hbody : gwBody sinkOne id id mat1zero mat1zero vec1one vec1one
      "square_loss" (1 / 10) false
      { T := .scalar (some 1), cpt := 0, err := some 1, errlog := [] }
      = .ok { T := .mat 1 1 fun _ _ => some 1, cpt := 1, err := some 0,
              errlog := [] } := by
    simp [gwBody, gwTens, tensor_square_loss, np_dot, np_transpose, np_neg,
      npMap, fneg, fmul, np_min, entriesList, fminL, fmin2, np_sub, np_bc,
      fsub, sinkOne, np_norm, fsumL, fadd, fdot, mat1zero, vec1one,
      List.ofFn_succ]
  exact (C8_checkpoint_policy.1 sinkOne id id mat1zero mat1zero vec1one
    vec1one "square_loss" (1 / 10) false _ _ hbody).2.1 (by decide)

/-!
### C7 infrastructure: shape preservation through the loops

`isSM n v` says `v` is a 0-d scalar or an `n x n` matrix - the two shapes a
coupling-loop value takes when the solver is driven with equal-size spaces
(because of the scalar initialization, `T` starts 0-d and becomes a matrix
after the first `sinkhorn` call; in the barycenter loop `C` starts as a
matrix and collapses to the 0-d scalar produced by the update rules).
-/

/-- A 0-d scalar or an `n x n` matrix. -/
def isSM (n : ℕ) (v : NpVal) : Prop :=
  (∃ x, v = .scalar x) ∨ (∃ A : Fin n → Fin n → F, v = .mat n n A)

theorem entriesF_length {m n : ℕ} (A : Fin m → Fin n → F) :
    (entriesList (.mat m n A)).length = m * n := by
  simp [entriesList, List.length_flatten, List.map_ofFn, Function.comp,
    List.sum_ofFn, Finset.sum_const, mul_comm]

theorem np_min_mat_ok {m n : ℕ} (hm : 0 < m) (hn : 0 < n)
    (A : Fin m → Fin n → F) : ∃ c, np_min (.mat m n A) = .ok c := by
  have hlen := entriesF_length A
  cases hE : entriesList (.mat m n A) with
  | nil =>
    rw [hE] at hlen
    have := Nat.mul_pos hm hn
    simp at hlen
    omega
  | cons e es =>
    refine ⟨fminL (e :: es), ?_⟩
    show (match entriesList (.mat m n A) with
      | [] => Except.error "ValueError: zero-size array reduction"
      | e :: es => Except.ok (fminL (e :: es))) = _
    rw [hE]

theorem np_max_mat_ok {m n : ℕ} (hm : 0 < m) (hn : 0 < n)
    (A : Fin m → Fin n → F) : ∃ c, np_max (.mat m n A) = .ok c := by
  have hlen := entriesF_length A
  cases hE : entriesList (.mat m n A) with
  | nil =>
    rw [hE] at hlen
    have := Nat.mul_pos hm hn
    simp at hlen
    omega
  | cons e es =>
    refine ⟨fmaxL (e :: es), ?_⟩
    show (match entriesList (.mat m n A) with
      | [] => Except.error "ValueError: zero-size array reduction"
      | e :: es => Except.ok (fmaxL (e :: es))) = _
    rw [hE]

theorem getE_ok {α : Type} {l : List α} {s : ℕ} (hs : s < l.length) :
    ∃ v, getE l s = .ok v ∧ v ∈ l := by
  cases hg : l.get? s with
  | none =>
    rw [List.get?_eq_none] at hg
    omega
  | some v =>
    refine ⟨v, ?_, List.get?_mem hg⟩
    show (match l.get? s with
      | some x => Except.ok x
      | none => Except.error "IndexError: list index out of range") = _
    rw [hg]

theorem dot_mat_sm {n : ℕ} (A : Fin n → Fin n → F) {T : NpVal}
    (hT : isSM n T) :
    ∃ M : Fin n → Fin n → F, np_dot (.mat n n A) T = .ok (.mat n n M) := by
  rcases hT with ⟨x, rfl⟩ | ⟨B, rfl⟩
  · exact ⟨fun i j => fmul (A i j) x, rfl⟩
  · exact ⟨fun i j => fdot (A i) fun t => B t j, by simp [np_dot]⟩

theorem dot_sm_mat {n : ℕ} {T : NpVal} (hT : isSM n T)
    (B : Fin n → Fin n → F) :
    ∃ M : Fin n → Fin n → F, np_dot T (.mat n n B) = .ok (.mat n n M) := by
  rcases hT with ⟨x, rfl⟩ | ⟨A, rfl⟩
  · exact ⟨fun i j => fmul x (B i j), rfl⟩
  · exact ⟨fun i j => fdot (A i) fun t => B t j, by simp [np_dot]⟩

theorem transpose_sm {n : ℕ} {v : NpVal} (h : isSM n v) :
    ∃ w, np_transpose v = .ok w ∧ isSM n w := by
  rcases h with ⟨x, rfl⟩ | ⟨A, rfl⟩
  · exact ⟨_, rfl, Or.inl ⟨x, rfl⟩⟩
  · exact ⟨_, rfl, Or.inr ⟨_, rfl⟩⟩

theorem np_bc_mat_sm (op : F → F → F) {n : ℕ} (M : Fin n → Fin n → F)
    {y : NpVal} (hy : isSM n y) :
    ∃ R : Fin n → Fin n → F, np_bc op (.mat n n M) y = .ok (.mat n n R) := by
  rcases hy with ⟨x, rfl⟩ | ⟨B, rfl⟩
  · exact ⟨_, rfl⟩
  · exact ⟨fun i j => op (M i j) (B i j), by simp [np_bc]⟩

theorem np_bc_scalar_sm (op : F → F → F) {n : ℕ} (x : F) {y : NpVal}
    (hy : isSM n y) : ∃ r, np_bc op (.scalar x) y = .ok r := by
  rcases hy with ⟨z, rfl⟩ | ⟨B, rfl⟩
  · exact ⟨_, rfl⟩
  · exact ⟨_, rfl⟩

theorem add_scalar_sm {n : ℕ} {v : NpVal} (h : isSM n v) (c : F) :
    ∃ w, np_add v (.scalar c) = .ok w ∧ isSM n w := by
  rcases h with ⟨x, rfl⟩ | ⟨A, rfl⟩
  · exact ⟨_, rfl, Or.inl ⟨_, rfl⟩⟩
  · exact ⟨_, rfl, Or.inr ⟨_, rfl⟩⟩

theorem log_sm {n : ℕ} (logVal : ℚ → ℚ) {v : NpVal} (h : isSM n v) :
    ∃ w, np_log logVal v = .ok w ∧ isSM n w := by
  rcases h with ⟨x, rfl⟩ | ⟨A, rfl⟩
  · exact ⟨_, rfl, Or.inl ⟨_, rfl⟩⟩
  · exact ⟨_, rfl, Or.inr ⟨_, rfl⟩⟩

theorem tensor_square_sm {n : ℕ} (hn : 0 < n) (A : Fin n → Fin n → F)
    {C2v T : NpVal} (hC2 : isSM n C2v) (hT : isSM n T) :
    ∃ M : Fin n → Fin n → F,
      tensor_square_loss (.mat n n A) C2v T = .ok (.mat n n M) := by
  obtain ⟨M1, hM1⟩ := dot_mat_sm A hT
  obtain ⟨c2t, hc2t, hc2tsm⟩ := transpose_sm hC2
  obtain ⟨M2, hM2⟩ := dot_mat_sm M1 hc2tsm
  obtain ⟨c, hc⟩ := np_min_mat_ok hn hn (fun i j => fneg (M2 i j))
  obtain ⟨R, hR⟩ := np_bc_mat_sm fsub (fun i j => fneg (M2 i j))
    (Or.inl ⟨c, rfl⟩)
  refine ⟨R, ?_⟩
  unfold tensor_square_loss
  rw [hM1, ok_bind, hc2t, ok_bind, hM2, ok_bind,
    show np_neg (.mat n n M2) = .ok (.mat n n fun i j => fneg (M2 i j))
      from rfl, ok_bind, hc, ok_bind]
  exact hR

theorem tensor_kl_sm {n : ℕ} (hn : 0 < n) (logVal : ℚ → ℚ)
    (A : Fin n → Fin n → F) {C2v T : NpVal} (hC2 : isSM n C2v)
    (hT : isSM n T) :
    ∃ M : Fin n → Fin n → F,
      tensor_kl_loss logVal (.mat n n A) C2v T = .ok (.mat n n M) := by
  obtain ⟨M1, hM1⟩ := dot_mat_sm A hT
  obtain ⟨sh, hsh, hshsm⟩ := add_scalar_sm hC2 (some floor15)
  obtain ⟨h2C2, hh2, hh2sm⟩ := log_sm logVal hshsm
  obtain ⟨c2t, hc2t, hc2tsm⟩ := transpose_sm hh2sm
  obtain ⟨M2, hM2⟩ := dot_mat_sm M1 hc2tsm
  obtain ⟨c, hc⟩ := np_min_mat_ok hn hn (fun i j => fneg (M2 i j))
  obtain ⟨R, hR⟩ := np_bc_mat_sm fsub (fun i j => fneg (M2 i j))
    (Or.inl ⟨c, rfl⟩)
  refine ⟨R, ?_⟩
  unfold tensor_kl_loss
  rw [hM1, ok_bind, hsh, ok_bind, hh2, ok_bind, hc2t, ok_bind, hM2, ok_bind,
    show np_neg (.mat n n M2) = .ok (.mat n n fun i j => fneg (M2 i j))
      from rfl, ok_bind, hc, ok_bind]
  exact hR

theorem gwTens_sm {n : ℕ} (hn : 0 < n) (logVal : ℚ → ℚ) {lossFun : String}
    (hl : lossFun = "square_loss" ∨ lossFun = "kl_loss")
    (A : Fin n → Fin n → F) {C2v T : NpVal} (hC2 : isSM n C2v)
    (hT : isSM n T) :
    ∃ M : Fin n → Fin n → F,
      gwTens logVal lossFun (.mat n n A) C2v T = .ok (.mat n n M) := by
  rcases hl with rfl | rfl
  · obtain ⟨M, hM⟩ := tensor_square_sm hn A hC2 hT
    exact ⟨M, by simpa [gwTens] using hM⟩
  · obtain ⟨M, hM⟩ := tensor_kl_sm hn logVal A hC2 hT
    exact ⟨M, by simpa [gwTens] using hM⟩

theorem gwBody_sm {n : ℕ} (hn : 0 < n)
    (sinkhorn : NpVal → NpVal → NpVal → ℚ → Except String NpVal)
    (sqrtVal logVal : ℚ → ℚ) {lossFun : String}
    (hl : lossFun = "square_loss" ∨ lossFun = "kl_loss")
    (A : Fin n → Fin n → F) {C2v : NpVal} (hC2 : isSM n C2v)
    (p q : NpVal) (eps : ℚ) (logFlag : Bool)
    (hsink : ∀ a b c e, ∃ M : Fin n → Fin n → F,
      sinkhorn a b c e = .ok (.mat n n M))
    (st : GWState) (hT : isSM n st.T) :
    ∃ st', gwBody sinkhorn sqrtVal logVal (.mat n n A) C2v p q lossFun eps
        logFlag st = .ok st' ∧ isSM n st'.T ∧ st'.cpt = st.cpt + 1 := by
  obtain ⟨M, hM⟩ := gwTens_sm hn logVal hl A hC2 hT
  obtain ⟨S, hS⟩ := hsink p q (.mat n n M) eps
  unfold gwBody
  rw [hM, ok_bind, hS, ok_bind]
  by_cases hc : st.cpt % 10 = 0
  · rw [if_pos hc]
    obtain ⟨d, hd⟩ : ∃ d, np_sub (.mat n n S) st.T = .ok d := by
      rcases hT with ⟨x, hx⟩ | ⟨B, hB⟩
      · rw [hx]
        exact ⟨_, rfl⟩
      · rw [hB]
        obtain ⟨R, hR⟩ := np_bc_mat_sm fsub S (Or.inr ⟨B, rfl⟩)
        exact ⟨_, hR⟩
    rw [hd, ok_bind]
    exact ⟨_, rfl, Or.inr ⟨S, rfl⟩, rfl⟩
  · rw [if_neg hc]
    exact ⟨_, rfl, Or.inr ⟨S, rfl⟩, rfl⟩

theorem gwIter_sm {n : ℕ} (hn : 0 < n)
    (sinkhorn : NpVal → NpVal → NpVal → ℚ → Except String NpVal)
    (sqrtVal logVal : ℚ → ℚ) {lossFun : String}
    (hl : lossFun = "square_loss" ∨ lossFun = "kl_loss")
    (A : Fin n → Fin n → F) {C2v : NpVal} (hC2 : isSM n C2v)
    (p q : NpVal) (eps : ℚ) (logFlag : Bool) (numItermax : ℕ) (stopThr : ℚ)
    (hsink : ∀ a b c e, ∃ M : Fin n → Fin n → F,
      sinkhorn a b c e = .ok (.mat n n M)) :
    ∀ (fuel : ℕ) (st : GWState), isSM n st.T →
    ∃ st', gwIter sinkhorn sqrtVal logVal (.mat n n A) C2v p q lossFun eps
        logFlag numItermax stopThr fuel st = .ok st' ∧ isSM n st'.T := by
  intro fuel
  induction fuel with
  | zero => exact fun st h => ⟨st, rfl, h⟩
  | succ k ih =>
    intro st hT
    unfold gwIter
    by_cases hg : (fgt st.err stopThr && decide (st.cpt < numItermax)) = true
    · rw [if_pos hg]
      obtain ⟨st1, h1, hsm1, _⟩ := gwBody_sm hn sinkhorn sqrtVal logVal hl A
        hC2 p q eps logFlag hsink st hT
      rw [h1, ok_bind]
      exact ih st1 hsm1
    · rw [if_neg hg]
      exact ⟨st, rfl, hT⟩

theorem gwIter_cpt
    (sinkhorn : NpVal → NpVal → NpVal → ℚ → Except String NpVal)
    (sqrtVal logVal : ℚ → ℚ) (C1v C2v p q : NpVal) (lossFun : String)
    (eps : ℚ) (logFlag : Bool) (numItermax : ℕ) (stopThr : ℚ) :
    ∀ (fuel : ℕ) (st st' : GWState),
      gwIter sinkhorn sqrtVal logVal C1v C2v p q lossFun eps logFlag
        numItermax stopThr fuel st = .ok st' →
      st'.cpt ≤ st.cpt + fuel := by
  intro fuel
  induction fuel with
  | zero =>
    intro st st' h
    cases Except.ok.inj h
    omega
  | succ k ih =>
    intro st st' h
    unfold gwIter at h
    by_cases hg : (fgt st.err stopThr && decide (st.cpt < numItermax)) = true
    · rw [if_pos hg] at h
      obtain ⟨mid, hmid, h2⟩ := bind_ok_inv h
      have hcpt := (gwBody_spec sinkhorn sqrtVal logVal C1v C2v p q lossFun
        eps logFlag st mid hmid).1
      have := ih mid st' h2
      omega
    · rw [if_neg hg] at h
      cases Except.ok.inj h
      omega

theorem gw_ok {n : ℕ} (hn : 0 < n)
    (sinkhorn : NpVal → NpVal → NpVal → ℚ → Except String NpVal)
    (sqrtVal logVal : ℚ → ℚ) (rng : ℕ → ℚ) {lossFun : String}
    (hl : lossFun = "square_loss" ∨ lossFun = "kl_loss")
    (A : Fin n → Fin n → F) {C2v : NpVal} (hC2 : isSM n C2v)
    (pv qv : Fin n → F) (eps : ℚ) (numItermax : ℕ) (stopThr : ℚ)
    (log : Option (List F))
    (hsink : ∀ a b c e, ∃ M : Fin n → Fin n → F,
      sinkhorn a b c e = .ok (.mat n n M)) :
    ∃ r, gromov_wasserstein sinkhorn sqrtVal logVal rng (.mat n n A) C2v
        (.vec n pv) (.vec n qv) lossFun eps numItermax stopThr log = .ok r
      ∧ (log = none → isSM n r) := by
  unfold gromov_wasserstein
  have hT0 : np_dot (.vec n pv) (.vec n qv)
      = .ok (.scalar (fdot pv qv)) := by
    simp [np_dot]
  rw [show np_transpose (.vec n qv) = .ok (.vec n qv) from rfl, ok_bind,
    hT0, ok_bind]
  obtain ⟨st', hst, hsm⟩ := gwIter_sm hn sinkhorn sqrtVal logVal hl A hC2
    (.vec n pv) (.vec n qv) eps log.isSome numItermax stopThr hsink
    numItermax
    { T := .scalar (fdot pv qv), cpt := 0, err := some 1, errlog := log.getD [] }
    (Or.inl ⟨_, rfl⟩)
  rw [hst, ok_bind]
  cases log with
  | none => exact ⟨st'.T, rfl, fun _ => hsm⟩
  | some l => exact ⟨.tup st'.T st'.errlog, rfl, fun h => Option.noConfusion h⟩

theorem baryStep_ok {N : ℕ} (hN : 0 < N)
    (sinkhorn : NpVal → NpVal → NpVal → ℚ → Except String NpVal)
    (sqrtVal logVal : ℚ → ℚ) (rng : ℕ → ℚ) {lossFun : String}
    (hl : lossFun = "square_loss" ∨ lossFun = "kl_loss")
    {Cs ps : List NpVal}
    (hCs : ∀ v ∈ Cs, ∃ A : Fin N → Fin N → F, v = .mat N N A)
    (hps : ∀ v ∈ ps, ∃ w : Fin N → F, v = .vec N w)
    (hlen : ps.length = Cs.length) (pv : Fin N → F) (eps : ℚ)
    (numItermax : ℕ) {C : NpVal} (hC : isSM N C)
    (hsink : ∀ a b c e, ∃ M : Fin N → Fin N → F,
      sinkhorn a b c e = .ok (.mat N N M))
    (acc : List NpVal × List F) (s : ℕ) (hs : s < Cs.length) :
    ∃ r : NpVal, baryStep sinkhorn sqrtVal logVal rng Cs ps (.vec N pv)
        lossFun eps numItermax false C acc s = .ok (acc.1 ++ [r], acc.2)
      ∧ isSM N r := by
  obtain ⟨Css, hCssE, hCssMem⟩ := getE_ok hs
  obtain ⟨pss, hpssE, hpssMem⟩ := getE_ok (show s < ps.length from hlen ▸ hs)
  obtain ⟨A, hA⟩ := hCs _ hCssMem
  obtain ⟨w, hw⟩ := hps _ hpssMem
  subst hA
  subst hw
  obtain ⟨r, hr, hsmr⟩ := gw_ok hN sinkhorn sqrtVal logVal rng hl A hC w pv
    eps numItermax innerStopThr none hsink
  have hsm := hsmr rfl
  refine ⟨r, ?_, hsm⟩
  unfold baryStep
  rw [hCssE, ok_bind, hpssE, ok_bind, if_neg (by simp), hr, ok_bind]
  rcases hsm with ⟨x, rfl⟩ | ⟨M, rfl⟩ <;> rfl

theorem baryInner_ok {N : ℕ} (hN : 0 < N)
    (sinkhorn : NpVal → NpVal → NpVal → ℚ → Except String NpVal)
    (sqrtVal logVal : ℚ → ℚ) (rng : ℕ → ℚ) {lossFun : String}
    (hl : lossFun = "square_loss" ∨ lossFun = "kl_loss")
    {Cs ps : List NpVal}
    (hCs : ∀ v ∈ Cs, ∃ A : Fin N → Fin N → F, v = .mat N N A)
    (hps : ∀ v ∈ ps, ∃ w : Fin N → F, v = .vec N w)
    (hlen : ps.length = Cs.length) (pv : Fin N → F) (eps : ℚ)
    (numItermax : ℕ) {C : NpVal} (hC : isSM N C) (log0 : List F)
    (hsink : ∀ a b c e, ∃ M : Fin N → Fin N → F,
      sinkhorn a b c e = .ok (.mat N N M)) :
    ∃ TL, baryInner sinkhorn sqrtVal logVal rng Cs ps (.vec N pv) lossFun
        eps numItermax false C log0 = .ok TL
      ∧ TL.1.length = Cs.length ∧ (∀ t ∈ TL.1, isSM N t) ∧ TL.2 = log0 := by
  suffices h : ∀ l : List ℕ, (∀ s ∈ l, s < Cs.length) →
      ∀ acc : List NpVal × List F,
      ∃ res, l.foldlM (baryStep sinkhorn sqrtVal logVal rng Cs ps (.vec N pv)
          lossFun eps numItermax false C) acc = .ok res
        ∧ res.1.length = acc.1.length + l.length
        ∧ (∀ t ∈ res.1, t ∈ acc.1 ∨ isSM N t) ∧ res.2 = acc.2 by
    obtain ⟨res, h1, h2, h3, h4⟩ := h (List.range Cs.length)
      (fun s hs => List.mem_range.mp hs) ([], log0)
    refine ⟨res, h1, ?_, ?_, h4⟩
    · simpa [List.length_range] using h2
    · intro t ht
      rcases h3 t ht with hmem | hsm
      · exact absurd hmem (List.not_mem_nil t)
      · exact hsm
  intro l
  induction l with
  | nil => exact fun _ acc => ⟨acc, rfl, by simp, fun t ht => Or.inl ht, rfl⟩
  | cons x xs ih =>
    intro hmem acc
    obtain ⟨r, hstep, hsmr⟩ := baryStep_ok hN sinkhorn sqrtVal logVal rng hl
      hCs hps hlen pv eps numItermax hC hsink acc x
      (hmem x (List.mem_cons_self x xs))
    rw [List.foldlM_cons, hstep, ok_bind]
    obtain ⟨res, h1, h2, h3, h4⟩ := ih
      (fun s hs => hmem s (List.mem_cons_of_mem _ hs)) (acc.1 ++ [r], acc.2)
    refine ⟨res, h1, by simp at h2 ⊢; omega, ?_, h4⟩
    intro t ht
    rcases h3 t ht with hmem2 | hsm2
    · rcases List.mem_append.mp hmem2 with hin | hin
      · exact Or.inl hin
      · simp at hin
        subst hin
        exact Or.inr hsmr
    · exact Or.inr hsm2

theorem updateTerm_ok {N : ℕ} (lambdas : List ℚ) {T Cs : List NpVal}
    (hT : ∀ t ∈ T, isSM N t)
    (hCs : ∀ v ∈ Cs, ∃ A : Fin N → Fin N → F, v = .mat N N A)
    (hlen : T.length = Cs.length) (hlam : T.length ≤ lambdas.length)
    (s : ℕ) (hs : s < T.length) :
    ∃ M : Fin N → Fin N → F,
      updateTerm lambdas T Cs s = .ok (.mat N N M) := by
  obtain ⟨Ts, hTsE, hTsMem⟩ := getE_ok hs
  obtain ⟨Css, hCssE, hCssMem⟩ := getE_ok (show s < Cs.length from hlen ▸ hs)
  obtain ⟨lam, hlamE, _⟩ := getE_ok (lt_of_lt_of_le hs hlam)
  have hTsSM := hT _ hTsMem
  obtain ⟨B, hB⟩ := hCs _ hCssMem
  subst hB
  obtain ⟨TsT, hTsT, hTsTsm⟩ := transpose_sm hTsSM
  obtain ⟨a, ha⟩ := dot_sm_mat hTsTsm B
  obtain ⟨b, hb⟩ := dot_mat_sm a hTsSM
  refine ⟨fun i j => fmul (some lam) (b i j), ?_⟩
  unfold updateTerm
  rw [hTsE, ok_bind, hCssE, ok_bind, hlamE, ok_bind, hTsT, ok_bind, ha,
    ok_bind, hb, ok_bind]
  rfl

theorem mapM_ok {α β : Type} {f : α → Except String β} {Q : β → Prop} :
    ∀ {l : List α}, (∀ s ∈ l, ∃ v, f s = .ok v ∧ Q v) →
    ∃ out, l.mapM f = .ok out ∧ ∀ v ∈ out, Q v := by
  intro l
  induction l with
  | nil => exact fun _ => ⟨[], rfl, by simp⟩
  | cons x xs ih =>
    intro h
    obtain ⟨v, hv, hQ⟩ := h x (List.mem_cons_self x xs)
    obtain ⟨out, hout, hQs⟩ := ih (fun s hs => h s (List.mem_cons_of_mem _ hs))
    refine ⟨v :: out, ?_, ?_⟩
    · rw [List.mapM_cons, hv, ok_bind, hout, ok_bind]
      rfl
    · intro u hu
      rcases List.mem_cons.mp hu with rfl | h2
      · exact hQ
      · exact hQs u h2

theorem np_sum_list_ok {N : ℕ} {l : List NpVal}
    (h : ∀ t ∈ l, ∃ M : Fin N → Fin N → F, t = .mat N N M) :
    ∃ x, np_sum_list l = .ok (.scalar x) := by
  cases l with
  | nil => exact ⟨some 0, rfl⟩
  | cons t ts =>
    obtain ⟨M, hM⟩ := h t (List.mem_cons_self t ts)
    subst hM
    have hall : ts.all (sameShape (.mat N N M)) = true := by
      rw [List.all_eq_true]
      intro u hu
      obtain ⟨Mu, hMu⟩ := h u (List.mem_cons_of_mem _ hu)
      subst hMu
      simp [sameShape]
    refine ⟨fsumL (((.mat N N M) :: ts).map np_sum), ?_⟩
    show (if ts.all (sameShape (NpVal.mat N N M)) = true
        then Except.ok (NpVal.scalar (fsumL (List.map np_sum
          (NpVal.mat N N M :: ts))))
        else Except.error "ValueError: inhomogeneous shapes")
      = Except.ok (NpVal.scalar (fsumL (List.map np_sum
          (NpVal.mat N N M :: ts))))
    rw [if_pos hall]

theorem update_square_ok {N : ℕ} (pv : Fin N → F) (lambdas : List ℚ)
    {T Cs : List NpVal} (hT : ∀ t ∈ T, isSM N t)
    (hCs : ∀ v ∈ Cs, ∃ A : Fin N → Fin N → F, v = .mat N N A)
    (hlen : T.length = Cs.length) (hlam : T.length ≤ lambdas.length) :
    ∃ x, update_square_loss (.vec N pv) lambdas T Cs = .ok (.scalar x) := by
  obtain ⟨terms, hterms, hQ⟩ := mapM_ok
    (f := updateTerm lambdas T Cs)
    (Q := fun t => ∃ M : Fin N → Fin N → F, t = .mat N N M)
    (l := List.range T.length)
    (fun s hs => by
      obtain ⟨M, hM⟩ := updateTerm_ok lambdas hT hCs hlen hlam s
        (List.mem_range.mp hs)
      exact ⟨_, hM, M, rfl⟩)
  obtain ⟨x0, hsum⟩ := np_sum_list_ok hQ
  have hts : update_tmpsum lambdas T Cs = .ok (.scalar x0) := by
    unfold update_tmpsum
    rw [hterms, ok_bind, hsum]
  have hppt : np_dot (.vec N pv) (.vec N pv)
      = .ok (.scalar (fdot pv pv)) := by
    simp [np_dot]
  refine ⟨fdiv x0 (fdot pv pv), ?_⟩
  unfold update_square_loss
  rw [hts, ok_bind,
    show np_transpose (.vec N pv) = .ok (.vec N pv) from rfl, ok_bind,
    hppt, ok_bind]
  rfl

theorem update_kl_ok {N : ℕ} (expVal : ℚ → ℚ) (pv : Fin N → F)
    (lambdas : List ℚ) {T Cs : List NpVal} (hT : ∀ t ∈ T, isSM N t)
    (hCs : ∀ v ∈ Cs, ∃ A : Fin N → Fin N → F, v = .mat N N A)
    (hlen : T.length = Cs.length) (hlam : T.length ≤ lambdas.length) :
    ∃ x, update_kl_loss expVal (.vec N pv) lambdas T Cs
      = .ok (.scalar x) := by
  obtain ⟨terms, hterms, hQ⟩ := mapM_ok
    (f := updateTerm lambdas T Cs)
    (Q := fun t => ∃ M : Fin N → Fin N → F, t = .mat N N M)
    (l := List.range T.length)
    (fun s hs => by
      obtain ⟨M, hM⟩ := updateTerm_ok lambdas hT hCs hlen hlam s
        (List.mem_range.mp hs)
      exact ⟨_, hM, M, rfl⟩)
  obtain ⟨x0, hsum⟩ := np_sum_list_ok hQ
  have hts : update_tmpsum lambdas T Cs = .ok (.scalar x0) := by
    unfold update_tmpsum
    rw [hterms, ok_bind, hsum]
  have hppt : np_dot (.vec N pv) (.vec N pv)
      = .ok (.scalar (fdot pv pv)) := by
    simp [np_dot]
  refine ⟨fexp expVal (fdiv x0 (fdot pv pv)), ?_⟩
  unfold update_kl_loss
  rw [hts, ok_bind,
    show np_transpose (.vec N pv) = .ok (.vec N pv) from rfl, ok_bind,
    hppt, ok_bind,
    show np_divide (.scalar x0) (.scalar (fdot pv pv))
      = .ok (.scalar (fdiv x0 (fdot pv pv))) from rfl, ok_bind]
  rfl

theorem baryUpdate_ok {N : ℕ} (expVal : ℚ → ℚ) (pv : Fin N → F)
    (lambdas : List ℚ) {lossFun : String}
    (hl : lossFun = "square_loss" ∨ lossFun = "kl_loss") {T Cs : List NpVal}
    (hT : ∀ t ∈ T, isSM N t)
    (hCs : ∀ v ∈ Cs, ∃ A : Fin N → Fin N → F, v = .mat N N A)
    (hlen : T.length = Cs.length) (hlam : T.length ≤ lambdas.length)
    (Cprev : NpVal) :
    ∃ x, baryUpdate expVal (.vec N pv) lambdas lossFun Cs Cprev T
      = .ok (.scalar x) := by
  rcases hl with rfl | rfl
  · obtain ⟨x, hx⟩ := update_square_ok pv lambdas hT hCs hlen hlam
    exact ⟨x, by simpa [baryUpdate] using hx⟩
  · obtain ⟨x, hx⟩ := update_kl_ok expVal pv lambdas hT hCs hlen hlam
    exact ⟨x, by simpa [baryUpdate] using hx⟩

theorem baryBody_ok {N : ℕ} (hN : 0 < N)
    (sinkhorn : NpVal → NpVal → NpVal → ℚ → Except String NpVal)
    (sqrtVal logVal expVal : ℚ → ℚ) (rng : ℕ → ℚ) {lossFun : String}
    (hl : lossFun = "square_loss" ∨ lossFun = "kl_loss")
    {Cs ps : List NpVal}
    (hCs : ∀ v ∈ Cs, ∃ A : Fin N → Fin N → F, v = .mat N N A)
    (hps : ∀ v ∈ ps, ∃ w : Fin N → F, v = .vec N w)
    (hlen : ps.length = Cs.length) (pv : Fin N → F) (lambdas : List ℚ)
    (hlam : Cs.length ≤ lambdas.length) (eps : ℚ) (numItermax : ℕ)
    (hsink : ∀ a b c e, ∃ M : Fin N → Fin N → F,
      sinkhorn a b c e = .ok (.mat N N M))
    (st : BaryState) (hC : isSM N st.C) :
    ∃ st', baryBody sinkhorn sqrtVal logVal expVal rng Cs ps (.vec N pv)
        lambdas lossFun eps numItermax false st = .ok st'
      ∧ isSM N st'.C ∧ st'.cpt = st.cpt + 1 := by
  obtain ⟨TL, hTL, hTLlen, hTLsm, hTLlog⟩ := baryInner_ok hN sinkhorn sqrtVal
    logVal rng hl hCs hps hlen pv eps numItermax hC st.errlog hsink
  obtain ⟨x, hupd⟩ := baryUpdate_ok expVal pv lambdas hl hTLsm hCs hTLlen
    (hTLlen ▸ hlam) st.C
  unfold baryBody
  rw [hTL, ok_bind, hupd, ok_bind]
  by_cases hc : st.cpt % 10 = 0
  · rw [if_pos hc]
    obtain ⟨d, hd⟩ := np_bc_scalar_sm fsub x hC
    rw [show np_sub (.scalar x) st.C = np_bc fsub (.scalar x) st.C from rfl,
      hd, ok_bind]
    exact ⟨_, rfl, Or.inl ⟨x, rfl⟩, rfl⟩
  · rw [if_neg hc]
    exact ⟨_, rfl, Or.inl ⟨x, rfl⟩, rfl⟩

theorem baryIter_sm {N : ℕ} (hN : 0 < N)
    (sinkhorn : NpVal → NpVal → NpVal → ℚ → Except String NpVal)
    (sqrtVal logVal expVal : ℚ → ℚ) (rng : ℕ → ℚ) {lossFun : String}
    (hl : lossFun = "square_loss" ∨ lossFun = "kl_loss")
    {Cs ps : List NpVal}
    (hCs : ∀ v ∈ Cs, ∃ A : Fin N → Fin N → F, v = .mat N N A)
    (hps : ∀ v ∈ ps, ∃ w : Fin N → F, v = .vec N w)
    (hlen : ps.length = Cs.length) (pv : Fin N → F) (lambdas : List ℚ)
    (hlam : Cs.length ≤ lambdas.length) (eps : ℚ) (numItermax : ℕ)
    (stopThr : ℚ)
    (hsink : ∀ a b c e, ∃ M : Fin N → Fin N → F,
      sinkhorn a b c e = .ok (.mat N N M)) :
    ∀ (fuel : ℕ) (st : BaryState), isSM N st.C →
    ∃ st', baryIter sinkhorn sqrtVal logVal expVal rng Cs ps (.vec N pv)
        lambdas lossFun eps numItermax false stopThr fuel st = .ok st'
      ∧ isSM N st'.C := by
  intro fuel
  induction fuel with
  | zero => exact fun st h => ⟨st, rfl, h⟩
  | succ k ih =>
    intro st hC
    unfold baryIter
    by_cases hg : (fgt st.err stopThr && decide (st.cpt < numItermax)) = true
    · rw [if_pos hg]
      obtain ⟨st1, h1, hsm1, _⟩ := baryBody_ok hN sinkhorn sqrtVal logVal
        expVal rng hl hCs hps hlen pv lambdas hlam eps numItermax hsink st hC
      rw [h1, ok_bind]
      exact ih st1 hsm1
    · rw [if_neg hg]
      exact ⟨st, rfl, hC⟩

theorem baryIter_cpt
    (sinkhorn : NpVal → NpVal → NpVal → ℚ → Except String NpVal)
    (sqrtVal logVal expVal : ℚ → ℚ) (rng : ℕ → ℚ) (Cs ps : List NpVal)
    (p : NpVal) (lambdas : List ℚ) (lossFun : String) (eps : ℚ)
    (numItermax : ℕ) (logFlag : Bool) (stopThr : ℚ) :
    ∀ (fuel : ℕ) (st st' : BaryState),
      baryIter sinkhorn sqrtVal logVal expVal rng Cs ps p lambdas lossFun
        eps numItermax logFlag stopThr fuel st = .ok st' →
      st'.cpt ≤ st.cpt + fuel := by
  intro fuel
  induction fuel with
  | zero =>
    intro st st' h
    cases Except.ok.inj h
    omega
  | succ k ih =>
    intro st st' h
    unfold baryIter at h
    by_cases hg : (fgt st.err stopThr && decide (st.cpt < numItermax)) = true
    · rw [if_pos hg] at h
      obtain ⟨mid, hmid, h2⟩ := bind_ok_inv h
      have hcpt := (baryBody_spec sinkhorn sqrtVal logVal expVal rng Cs ps p
        lambdas lossFun eps numItermax logFlag st mid hmid).1
      have := ih mid st' h2
      omega
    · rw [if_neg hg] at h
      cases Except.ok.inj h
      omega

theorem gromov_barycenters_ok {N : ℕ} (hN : 0 < N)
    (sinkhorn : NpVal → NpVal → NpVal → ℚ → Except String NpVal)
    (sqrtVal logVal expVal : ℚ → ℚ) (rng : ℕ → ℚ) {lossFun : String}
    (hl : lossFun = "square_loss" ∨ lossFun = "kl_loss")
    {Cs ps : List NpVal}
    (hCs : ∀ v ∈ Cs, ∃ A : Fin N → Fin N → F, v = .mat N N A)
    (hps : ∀ v ∈ ps, ∃ w : Fin N → F, v = .vec N w)
    (hlen : ps.length = Cs.length) (pv : Fin N → F) (lambdas : List ℚ)
    (hlam : Cs.length ≤ lambdas.length) (eps : ℚ) (numItermax : ℕ)
    (stopThr : ℚ)
    (hsink : ∀ a b c e, ∃ M : Fin N → Fin N → F,
      sinkhorn a b c e = .ok (.mat N N M)) :
    ∃ r, gromov_barycenters sinkhorn sqrtVal logVal expVal rng N Cs ps
        (.vec N pv) lambdas lossFun eps numItermax stopThr none = .ok r := by
  unfold gromov_barycenters
  dsimp only
  simp only [Option.isSome_none, Option.getD_none]
  obtain ⟨mx, hmx⟩ := np_max_mat_ok hN hN (fun i j : Fin N =>
    some (sqrtVal ((rng (2 * i.val + 0) - rng (2 * j.val + 0)) ^ 2
      + (rng (2 * i.val + 1) - rng (2 * j.val + 1)) ^ 2)))
  rw [show np_max (dist sqrtVal N (fun i d => rng (2 * i.val + d.val))
      (fun i d => rng (2 * i.val + d.val)))
    = np_max (.mat N N fun i j : Fin N =>
      some (sqrtVal ((rng (2 * i.val + 0) - rng (2 * j.val + 0)) ^ 2
        + (rng (2 * i.val + 1) - rng (2 * j.val + 1)) ^ 2))) from rfl,
    hmx, ok_bind]
  obtain ⟨R, hR⟩ := np_bc_mat_sm fdiv (fun i j : Fin N =>
    some (sqrtVal ((rng (2 * i.val + 0) - rng (2 * j.val + 0)) ^ 2
      + (rng (2 * i.val + 1) - rng (2 * j.val + 1)) ^ 2)))
    (Or.inl ⟨mx, rfl⟩)
  rw [show np_divide (dist sqrtVal N (fun i d => rng (2 * i.val + d.val))
      (fun i d => rng (2 * i.val + d.val))) (.scalar mx)
    = np_bc fdiv (.mat N N fun i j : Fin N =>
      some (sqrtVal ((rng (2 * i.val + 0) - rng (2 * j.val + 0)) ^ 2
        + (rng (2 * i.val + 1) - rng (2 * j.val + 1)) ^ 2))) (.scalar mx)
      from rfl, hR, ok_bind]
  obtain ⟨st', hst, _⟩ := baryIter_sm hN sinkhorn sqrtVal logVal expVal rng
    hl hCs hps hlen pv lambdas hlam eps numItermax stopThr hsink numItermax
    { C := .mat N N R, cpt := 0, err := some 1, errorTrace := [],
      errlog := [] }
    (Or.inr ⟨R, rfl⟩)
  rw [hst, ok_bind]
  exact ⟨st'.C, rfl⟩

/-!
### C7
Both fixed-point loops are while-loops guarded by `cpt < numItermax` with
`cpt` incremented once per iteration, so they execute at most `numItermax`
iterations (`gromov_wasserstein` and `gromov_barycenters` run `gwIter` and
`baryIter` with `fuel = numItermax` from `cpt = 0`); and a run that merely
exhausts the budget raises nothing: under the shape assumptions of a
well-formed solve (equal-size spaces, a recognized kernel, an external
solver returning couplings) the whole call returns `ok` with the last
iterate, whatever `numItermax` and `stopThr` are - including runs that never
satisfy `err <= stopThr`.
-/

/-- C7: (i) the solver loop executes at most `fuel` (= `numItermax` at the
call site) iterations; (ii) so does the barycenter loop; (iii) a solver run
under well-formed-shape assumptions returns `ok` for every budget, in
particular when the budget is exhausted without convergence; (iv) the same
for a barycenter run. -/
theorem C7_budget_and_silent_exhaustion :
    (∀ (sinkhorn : NpVal → NpVal → NpVal → ℚ → Except String NpVal)
       (sqrtVal logVal : ℚ → ℚ) (C1v C2v p q : NpVal) (lossFun : String)
       (eps : ℚ) (logFlag : Bool) (numItermax : ℕ) (stopThr : ℚ)
       (fuel : ℕ) (st st' : GWState),
       gwIter sinkhorn sqrtVal logVal C1v C2v p q lossFun eps logFlag
         numItermax stopThr fuel st = .ok st' →
       st'.cpt ≤ st.cpt + fuel)
    ∧ (∀ (sinkhorn : NpVal → NpVal → NpVal → ℚ → Except String NpVal)
       (sqrtVal logVal expVal : ℚ → ℚ) (rng : ℕ → ℚ) (Cs ps : List NpVal)
       (p : NpVal) (lambdas : List ℚ) (lossFun : String) (eps : ℚ)
       (numItermax : ℕ) (logFlag : Bool) (stopThr : ℚ) (fuel : ℕ)
       (st st' : BaryState),
       baryIter sinkhorn sqrtVal logVal expVal rng Cs ps p lambdas lossFun
         eps numItermax logFlag stopThr fuel st = .ok st' →
       st'.cpt ≤ st.cpt + fuel)
    ∧ (∀ (sinkhorn : NpVal → NpVal → NpVal → ℚ → Except String NpVal)
       (sqrtVal logVal : ℚ → ℚ) (rng : ℕ → ℚ) (n : ℕ)
       (A : Fin n → Fin n → F) (C2v : NpVal) (pv qv : Fin n → F)
       (lossFun : String) (eps : ℚ) (numItermax : ℕ) (stopThr : ℚ)
       (log : Option (List F)),
       0 < n → lossFun = "square_loss" ∨ lossFun = "kl_loss" →
       isSM n C2v →
       (∀ a b c e, ∃ M : Fin n → Fin n → F,
         sinkhorn a b c e = .ok (.mat n n M)) →
       ∃ r, gromov_wasserstein sinkhorn sqrtVal logVal rng (.mat n n A) C2v
         (.vec n pv) (.vec n qv) lossFun eps numItermax stopThr log = .ok r)
    ∧ (∀ (sinkhorn : NpVal → NpVal → NpVal → ℚ → Except String NpVal)
       (sqrtVal logVal expVal : ℚ → ℚ) (rng : ℕ → ℚ) (N : ℕ)
       (Cs ps : List NpVal) (pv : Fin N → F) (lambdas : List ℚ)
       (lossFun : String) (eps : ℚ) (numItermax : ℕ) (stopThr : ℚ),
       0 < N → lossFun = "square_loss" ∨ lossFun = "kl_loss" →
       (∀ v ∈ Cs, ∃ A : Fin N → Fin N → F, v = .mat N N A) →
       (∀ v ∈ ps, ∃ w : Fin N → F, v = .vec N w) →
       ps.length = Cs.length → Cs.length ≤ lambdas.length →
       (∀ a b c e, ∃ M : Fin N → Fin N → F,
         sinkhorn a b c e = .ok (.mat N N M)) →
       ∃ r, gromov_barycenters sinkhorn sqrtVal logVal expVal rng N Cs ps
         (.vec N pv) lambdas lossFun eps numItermax stopThr none = .ok r) := by
  refine ⟨?_, ?_, ?_, ?_⟩
  · intro sinkhorn sqrtVal logVal C1v C2v p q lossFun eps logFlag numItermax
      stopThr fuel st st' h
    exact gwIter_cpt sinkhorn sqrtVal logVal C1v C2v p q lossFun eps logFlag
      numItermax stopThr fuel st st' h
  · intro sinkhorn sqrtVal logVal expVal rng Cs ps p lambdas lossFun eps
      numItermax logFlag stopThr fuel st st' h
    exact baryIter_cpt sinkhorn sqrtVal logVal expVal rng Cs ps p lambdas
      lossFun eps numItermax logFlag stopThr fuel st st' h
  · intro sinkhorn sqrtVal logVal rng n A C2v pv qv lossFun eps numItermax
      stopThr log hn hl hC2 hsink
    obtain ⟨r, hr, _⟩ := gw_ok hn sinkhorn sqrtVal logVal rng hl A hC2 pv qv
      eps numItermax stopThr log hsink
    exact ⟨r, hr⟩
  · intro sinkhorn sqrtVal logVal expVal rng N Cs ps pv lambdas lossFun eps
      numItermax stopThr hN hl hCs hps hlen hlam hsink
    exact gromov_barycenters_ok hN sinkhorn sqrtVal logVal expVal rng hl hCs
      hps hlen pv lambdas hlam eps numItermax stopThr hsink

/-- C7 witness: conjuncts (iii) and (iv) at concrete well-formed inputs with
budgets that exhaust without convergence (`stopThr = 1e-9`, constant
iterates). -/
theorem C7_budget_and_silent_exhaustion_witness :
    (∃ r, gromov_wasserstein sinkOne id id (fun _ => 0) mat1zero mat1zero
        vec1one vec1one "square_loss" (1 / 10) 5 (1 / 10 ^ 9) none = .ok r)
    ∧ (∃ r, gromov_barycenters sinkOne id id id (fun _ => 0) 1 [mat1zero]
        [vec1one] vec1one [1] "square_loss" (1 / 10) 3 (1 / 10 ^ 9) none
        = .ok r) := by
  constructor
  · exact C7_budget_and_silent_exhaustion.2.2.1 sinkOne id id (fun _ => 0) 1
      (fun _ _ => some 0) mat1zero (fun _ => some 1) (fun _ => some 1)
      "square_loss" (1 / 10) 5 (1 / 10 ^ 9) none (by decide) (Or.inl rfl)
      (Or.inr ⟨fun _ _ => some 0, rfl⟩)
      (fun a b c e => ⟨fun _ _ => some 1, rfl⟩)
  · exact C7_budget_and_silent_exhaustion.2.2.2 sinkOne id id id (fun _ => 0)
      1 [mat1zero] [vec1one] (fun _ => some 1) [1] "square_loss" (1 / 10) 3
      (1 / 10 ^ 9) (by decide) (Or.inl rfl)
      (by
        intro v hv
        rw [List.mem_singleton] at hv
        subst hv
        exact ⟨fun _ _ => some 0, rfl⟩)
      (by
        intro v hv
        rw [List.mem_singleton] at hv
        subst hv
        exact ⟨fun _ => some 1, rfl⟩)
      rfl (by decide)
      (fun a b c e => ⟨fun _ _ => some 1, rfl⟩)

end POTGromov
